import Mathlib

/-!
Verification of the Multi-Source Reconciliation & Search Index subsystem
of the `jocke` dashboard repository.

The development shallowly embeds the TypeScript sources:

* `lib/normalize.ts` (given as `src/unnamed/part_004`, first document):
  `normalizeValue`, `asString`, `asNumber`, the company field-synonym map and
  `normalizeCompany`;
* `lib/data-reader.ts` (given as `src/unnamed/part_006`): `readDateData` and
  `deduplicateByCompositeKey`;
* `dashboard/lib/index-db.ts`: schema versioning (`migrateIfNeeded`,
  `dropAllTables`, `ensureIndexDb`), `indexDateData`, `getIndexedDates`;
* `dashboard/app/api/search/route.ts`: flag enrichment, people search,
  `matchesPersonFilters`, `ensureIndexForDates`;
* `dashboard/app/api/data/totals/route.ts`: `queryTotalsFromIndex`;
* `dashboard/lib/data-paths.ts`: `getExistingDateDir`, `getAllDateDirs`.

File parsing (`lib/excel.ts`, `better-sqlite3`) is I/O and is cut away: a
source file is modelled by the entity lists its extraction step would return.
Finite JavaScript numbers are idealized as `Rat` (no claim touches float
rounding); the non-`NaN` results of `parseFloat`, which include the two
signed infinities produced by the `Infinity` literal, are modelled by the
sum type `JsNum`.  `new Date().toISOString()` becomes an explicit `now`
parameter.
-/

namespace Jocke

/-! ## JavaScript scalar values and the normalization helpers
    (from `lib/normalize.ts`, `src/unnamed/part_004` lines 271-294). -/

/-- An untyped JavaScript scalar as it arrives from a spreadsheet cell or a
database column: `undefined`, `null`, a string, a number or a boolean. -/
inductive JsValue where
  | vUndef : JsValue
  | vNull : JsValue
  | vStr : String → JsValue
  | vNum : Rat → JsValue
  | vBool : Bool → JsValue
deriving DecidableEq, Repr

/-- The result type of `normalizeValue`: `string | number` (with `null`
represented by `Option.none` at the use sites). -/
inductive NormValue where
  | nvStr : String → NormValue
  | nvNum : Rat → NormValue
deriving DecidableEq, Repr

/-- Renders a JavaScript number as a string (`String(value)` applied to a
number).  Number printing is abstracted: integers print exactly; other
rationals use Lean's `Rat` rendering.  No claim depends on this rendering. -/
def jsNumToString (q : Rat) : String :=
  if q.den = 1 then toString q.num else toString q

/-- Whitespace in the sense of `String.prototype.trim`. -/
def wsChar (c : Char) : Bool := c.isWhitespace

/-- Trim on character lists: drop whitespace from both ends. -/
def trimChars (l : List Char) : List Char :=
  ((l.dropWhile wsChar).reverse.dropWhile wsChar).reverse

/-- `String.prototype.trim` (character-list implementation, since Lean's
byte-position `String.trim` does not reduce on literals). -/
def jsTrim (s : String) : String := String.mk (trimChars s.data)

/-- `String.prototype.toLowerCase` (ASCII, per-character). -/
def jsToLower (s : String) : String := String.mk (s.data.map Char.toLower)

/-- Does `s` start with `sub`? -/
def startsWithChars : List Char → List Char → Bool
  | _, [] => true
  | [], _ :: _ => false
  | c :: cs, d :: ds => c = d && startsWithChars cs ds

/-- Substring containment on character lists. -/
def containsChars : List Char → List Char → Bool
  | s, sub =>
      startsWithChars s sub ||
        (match s with
         | [] => false
         | _ :: cs => containsChars cs sub)

/-- `normalizeValue` from `lib/normalize.ts`: `undefined`, `null` and `""`
become `null`; numbers pass through; booleans become `"Ja"`/`"Nej"`; any
other value is stringified, trimmed, and collapsed to `null` when empty. -/
def normalizeValue : JsValue → Option NormValue
  | .vUndef => none
  | .vNull => none
  | .vStr s =>
      if s = "" then none
      else
        let t := jsTrim s
        if t = "" then none else some (.nvStr t)
  | .vNum q => some (.nvNum q)
  | .vBool b => some (.nvStr (if b then "Ja" else "Nej"))

/-- `asString` from `lib/normalize.ts`: re-normalizes the already-normalized
value and stringifies it; `null`/`undefined` stay `null`.  On a stored
`NormValue` the renormalization is the identity, so this reduces to
stringification. -/
def asString : Option NormValue → Option String
  | none => none
  | some (.nvStr s) => some s
  | some (.nvNum q) => some (jsNumToString q)

/-- `String.prototype.replace(",", ".")`: replaces the first comma only.
Modelled on character lists for the single-character pattern the source
uses. -/
def replaceFirstComma : List Char → List Char
  | [] => []
  | c :: r => if c = ',' then '.' :: r else c :: replaceFirstComma r

/-- Digit-list value: `"123"` ↦ `123`. -/
def digitsToNat (l : List Char) : Nat :=
  l.foldl (fun a c => 10 * a + (c.toNat - 48)) 0

/-- A JavaScript number as `parseFloat` can yield it when it is not `NaN`:
a finite value (idealized as `Rat`) or one of the two signed infinities,
since `parseFloat("Infinity")` and `parseFloat("-Infinity")` return the
infinite doubles (which are not `NaN`, so `asNumber` passes them through). -/
inductive JsNum where
  | fin : Rat → JsNum
  | posInf : JsNum
  | negInf : JsNum
deriving DecidableEq, Repr

/-- `parseFloat` on a character list: skip leading whitespace, optional sign,
then either the ECMAScript `Infinity` literal (giving the signed infinite
value) or integer digits, optional `.` and fraction digits, optional
exponent.  Returns `none` for `NaN`. -/
def jsParseFloatL (l : List Char) : Option JsNum :=
  let l0 := l.dropWhile (fun c => c.isWhitespace)
  let neg : Bool := l0.head? = some '-'
  let l1 := if l0.head? = some '-' ∨ l0.head? = some '+' then l0.tail else l0
  if startsWithChars l1 ['I', 'n', 'f', 'i', 'n', 'i', 't', 'y'] then
    some (if neg then .negInf else .posInf)
  else
    let ip := l1.takeWhile Char.isDigit
    let l2 := l1.dropWhile Char.isDigit
    let fp := if l2.head? = some '.' then l2.tail.takeWhile Char.isDigit else []
    let l3 := if l2.head? = some '.' then l2.tail.dropWhile Char.isDigit else l2
    if ip.isEmpty ∧ fp.isEmpty then none
    else
      let mant : Rat :=
        (if neg then -1 else 1) *
          ((digitsToNat ip : Rat) + (digitsToNat fp : Rat) / (10 : Rat) ^ fp.length)
      let ex : Int :=
        if l3.head? = some 'e' ∨ l3.head? = some 'E' then
          let r := l3.tail
          let esgn : Int := if r.head? = some '-' then -1 else 1
          let r2 := if r.head? = some '-' ∨ r.head? = some '+' then r.tail else r
          let ed := r2.takeWhile Char.isDigit
          if ed.isEmpty then 0 else esgn * (digitsToNat ed : Int)
        else 0
      some (.fin (mant * (10 : Rat) ^ ex))

/-- `asNumber` from `lib/normalize.ts`: `null`/`undefined`/`""` give `null`;
numbers pass through; strings are parsed with `parseFloat` after replacing
the first comma by a period; `NaN` gives `null` (and only `NaN` does: an
infinite `parseFloat` result is returned as a number). -/
def asNumber : Option NormValue → Option JsNum
  | none => none
  | some (.nvNum q) => some (.fin q)
  | some (.nvStr s) => jsParseFloatL (replaceFirstComma s.toList)

/-- A raw record: an object as a key/value list (object keys are unique;
`lookup` takes the first binding). -/
def RawRecord := List (String × JsValue)

/-- `key in raw` / `raw[key]` as an optional lookup. -/
def jsLookup (raw : RawRecord) (k : String) : Option JsValue :=
  (List.find? (fun e => e.1 = k) raw).map (·.2)

/-! ## The company normalizer (from `lib/normalize.ts`, part_004 doc 1). -/

/-- `COMPANY_FIELD_MAP` in source order: `(sourceKey, targetField)` pairs.
Object iteration assigns in this order, so a later matching synonym
overwrites an earlier one. -/
def companyFieldMap : List (String × String) :=
  [("Mapp", "mapp"),
   ("Kungörelse-id", "kungorelse_id"),
   ("Företagsnamn", "foretagsnamn"),
   ("Org.nr", "orgnr"),
   ("Registreringsdatum", "registreringsdatum"),
   ("Publiceringsdatum", "publiceringsdatum"),
   ("Län", "lan"),
   ("Säte", "sate"),
   ("Postadress", "postadress"),
   ("E-post", "epost"),
   ("Typ", "typ"),
   ("Bildat", "bildat"),
   ("Verksamhet", "verksamhet"),
   ("Räkenskapsår", "rakenskapsar"),
   ("Aktiekapital", "aktiekapital"),
   ("Antal aktier", "antal_aktier"),
   ("Firmateckning", "firmateckning"),
   ("Styrelseledamöter", "styrelseledamoter"),
   ("Styrelsesuppleanter", "styrelsesuppleanter"),
   ("Styrelse (övrigt)", "styrelse_ovrigt"),
   ("Segment", "segment"),
   ("Källa URL", "kalla_url"),
   ("Ska få sajt", "ska_fa_sajt"),
   ("Konfidens", "konfidens"),
   ("Preview URL", "preview_url"),
   ("Audit Link", "audit_link"),
   ("domain_guess", "domain_guess"),
   ("domain_verified", "domain_verified"),
   ("domain_confidence", "domain_confidence"),
   ("domain_status", "domain_status"),
   ("emails_found", "emails_found"),
   ("phones_found", "phones_found"),
   ("people_count", "people_count"),
   ("research_done", "research_done"),
   ("kungorelse_id", "kungorelse_id"),
   ("mapp", "mapp"),
   ("foretagsnamn", "foretagsnamn"),
   ("orgnr", "orgnr"),
   ("registreringsdatum", "registreringsdatum"),
   ("publiceringsdatum", "publiceringsdatum"),
   ("lan", "lan"),
   ("sate", "sate"),
   ("postadress", "postadress"),
   ("epost", "epost"),
   ("typ", "typ"),
   ("bildat", "bildat"),
   ("verksamhet", "verksamhet"),
   ("rakenskapsar", "rakenskapsar"),
   ("aktiekapital", "aktiekapital"),
   ("antal_aktier", "antal_aktier"),
   ("firmateckning", "firmateckning"),
   ("styrelseledamoter", "styrelseledamoter"),
   ("styrelsesuppleanter", "styrelsesuppleanter"),
   ("styrelse_ovrigt", "styrelse_ovrigt"),
   ("segment", "segment"),
   ("kalla_url", "kalla_url")]

/-- The mapping loop shared by all normalizers: for each `(sourceKey,
targetKey)` entry, when `sourceKey in raw`, assign
`result[targetKey] = normalizeValue(raw[sourceKey])`.  The accumulator maps a
target field to `none` (never assigned) or `some v` (assigned the normalized
value `v`, itself possibly `null`). -/
def applyFieldMap (entries : List (String × String)) (raw : RawRecord) :
    String → Option (Option NormValue) :=
  entries.foldl
    (fun acc e =>
      if (jsLookup raw e.1).isSome then
        fun t => if t = e.2 then some (normalizeValue ((jsLookup raw e.1).getD .vUndef)) else acc t
      else acc)
    (fun _ => none)

/-- Reads the assigned value for one target field; an unassigned field and a
field assigned `null` are indistinguishable downstream (`asString`,
`asNumber` and `?? null` treat `undefined` and `null` alike). -/
def resolveCompanyField (raw : RawRecord) (t : String) : Option NormValue :=
  (applyFieldMap companyFieldMap raw t).join

/-- `NormalizedCompany` from `lib/normalize.ts` (part_004 doc 1).
`antal_aktier` is `number | string | null` in the source and keeps the
normalized value unchanged. -/
structure NormalizedCompany where
  mapp : String
  kungorelse_id : String
  foretagsnamn : String
  orgnr : String
  registreringsdatum : Option String
  publiceringsdatum : Option String
  lan : Option String
  sate : Option String
  postadress : Option String
  epost : Option String
  typ : Option String
  bildat : Option String
  verksamhet : Option String
  rakenskapsar : Option String
  aktiekapital : Option String
  antal_aktier : Option NormValue
  firmateckning : Option String
  styrelseledamoter : Option String
  styrelsesuppleanter : Option String
  styrelse_ovrigt : Option String
  segment : Option String
  kalla_url : Option String
  domain_guess : Option String
  domain_verified : Option String
  domain_confidence : Option JsNum
  domain_status : Option String
  emails_found : Option String
  phones_found : Option String
  people_count : Option JsNum
  research_done : Option String
  ska_fa_sajt : Option String
  konfidens : Option String
  preview_url : Option String
  audit_link : Option String
deriving DecidableEq, Repr

/-- `normalizeCompany` from `lib/normalize.ts` (part_004 doc 1, lines
300-346). -/
def normalizeCompany (raw : RawRecord) : NormalizedCompany :=
  let r := resolveCompanyField raw
  { mapp := (asString (r "mapp")).getD ""
    kungorelse_id := (asString (r "kungorelse_id")).getD ""
    foretagsnamn := (asString (r "foretagsnamn")).getD ""
    orgnr := (asString (r "orgnr")).getD ""
    registreringsdatum := asString (r "registreringsdatum")
    publiceringsdatum := asString (r "publiceringsdatum")
    lan := asString (r "lan")
    sate := asString (r "sate")
    postadress := asString (r "postadress")
    epost := asString (r "epost")
    typ := asString (r "typ")
    bildat := asString (r "bildat")
    verksamhet := asString (r "verksamhet")
    rakenskapsar := asString (r "rakenskapsar")
    aktiekapital := asString (r "aktiekapital")
    antal_aktier := r "antal_aktier"
    firmateckning := asString (r "firmateckning")
    styrelseledamoter := asString (r "styrelseledamoter")
    styrelsesuppleanter := asString (r "styrelsesuppleanter")
    styrelse_ovrigt := asString (r "styrelse_ovrigt")
    segment := asString (r "segment")
    kalla_url := asString (r "kalla_url")
    domain_guess := asString (r "domain_guess")
    domain_verified := asString (r "domain_verified")
    domain_confidence := asNumber (r "domain_confidence")
    domain_status := asString (r "domain_status")
    emails_found := asString (r "emails_found")
    phones_found := asString (r "phones_found")
    people_count := asNumber (r "people_count")
    research_done := asString (r "research_done")
    ska_fa_sajt := asString (r "ska_fa_sajt")
    konfidens := asString (r "konfidens")
    preview_url := asString (r "preview_url")
    audit_link := asString (r "audit_link") }

/-- `normalizeCompanies`. -/
def normalizeCompanies (rows : List RawRecord) : List NormalizedCompany :=
  rows.map normalizeCompany

/-! ## Entity shapes used by the data reader and the index.

The deployed `lib/normalize.ts` module (imported by `lib/data-reader.ts` and
`lib/index-db.ts`) is not among the provided sources; `src/unnamed/part_004`
holds two older variants of it whose `NormalizedMail` / `NormalizedPerson` /
`NormalizedEvaluation` lack the `mapp` and `mail_status` fields that
`data-reader.ts`, `index-db.ts` and the pages reference.  The shapes below
therefore follow the spec's data model (§3) plus the fields the present
callers use. -/

/-- Modelled from the spec: `NormalizedMail` of the deployed `lib/normalize.ts`
is absent from the sources; per §3 a Mail is tied to a Company via
`folder_id` (`mapp`) and carries subject, recipient address, body, a
domain-status snapshot, a mail status and an optional preview-site URL.
Natural-key fields are non-null strings. -/
structure MailM where
  mapp : String
  folder : String
  company : String
  email : String
  subject : String
  mail_content : Option String
  cost_sek : Option Rat
  domain_status : Option String
  mail_status : Option String
  site_preview_url : Option String
  audit_note : Option String
deriving DecidableEq, Repr

/-- Modelled from the spec: `NormalizedPerson` of the deployed
`lib/normalize.ts` is absent from the sources; per §3 a Person belongs to a
Company via `folder_id` (`mapp`), with name parts, role and address parts
(part_004's variant plus the `mapp` field the callers use). -/
structure PersonM where
  mapp : String
  kungorelse_id : String
  foretagsnamn : String
  orgnr : String
  roll : Option String
  personnummer : Option String
  efternamn : Option String
  fornamn : Option String
  mellannamn : Option String
  adress : Option String
  postnummer : Option String
  ort : Option String
deriving DecidableEq, Repr

/-- `NormalizedAudit` from `lib/normalize.ts` (part_004 doc 1). -/
structure AuditM where
  mapp : String
  foretagsnamn : String
  hemsida : Option String
  audit_datum : Option String
  bransch : Option String
  helhet : Option Rat
  design : Option Rat
  innehall : Option Rat
  anvandbarhet : Option Rat
  mobil : Option Rat
  seo : Option Rat
  styrkor : Option String
  svagheter : Option String
  rekommendationer : Option String
deriving DecidableEq, Repr

/-- Modelled from the spec: `NormalizedEvaluation` of the deployed
`lib/normalize.ts` is absent from the sources; per §3 an Evaluation is tied
to a Company (natural key `folder_id`, i.e. `mapp`, which the callers use)
with verdict, confidence, rationale and preview URL. -/
structure EvalM where
  mapp : String
  kungorelse_id : String
  foretagsnamn : String
  ska_fa_sajt : Option String
  konfidens : Option String
  motivering : Option String
  preview_url : Option String
deriving DecidableEq, Repr

/-- `NormalizedSummary` from `lib/normalize.ts` (part_004 doc 1). -/
structure SummaryM where
  datum : Option String
  skapad : Option String
  totalt_antal_foretag : Option Rat
  med_doman : Option Rat
  mail_genererade : Option Rat
  bedomda_foretag : Option Rat
  varda_foretag : Option Rat
  med_preview_url : Option Rat
deriving DecidableEq, Repr

/-- `NormalizedData` from `lib/normalize.ts`. -/
structure NormalizedData where
  companies : List NormalizedCompany
  people : List PersonM
  mails : List MailM
  audits : List AuditM
  evaluations : List EvalM
  summary : Option SummaryM
deriving DecidableEq, Repr

/-! ## The data reader (from `lib/data-reader.ts`, `src/unnamed/part_006`). -/

/-- `String.prototype.includes`. -/
def jsIncludes (s sub : String) : Bool :=
  containsChars s.data sub.data

/-- `${x}` applied to a nullable string inside a template literal: `null`
renders as `"null"`. -/
def optNullStr : Option String → String
  | none => "null"
  | some s => s

/-- `deduplicateByCompositeKey` from `lib/data-reader.ts` (lines 113-121):
keeps an item when its key is non-empty and not seen before.  `seen` is the
set of already-seen keys. -/
def deduplicateByCompositeKey {α : Type} (keyFn : α → String) :
    List String → List α → List α
  | _, [] => []
  | seen, x :: xs =>
      let k := keyFn x
      if k = "" ∨ k ∈ seen then deduplicateByCompositeKey keyFn seen xs
      else x :: deduplicateByCompositeKey keyFn (k :: seen) xs

/-- First-seen-wins deduplication by an arbitrary key (no empty-key drop);
used only by the spec-modelled `mergeLinkedData`. -/
def specDedupByKey {α κ : Type} [DecidableEq κ] (keyFn : α → κ) :
    List κ → List α → List α
  | _, [] => []
  | seen, x :: xs =>
      if keyFn x ∈ seen then specDedupByKey keyFn seen xs
      else x :: specDedupByKey keyFn (keyFn x :: seen) xs

/-- The Mail natural key of §3: `(folder_id, email, subject)`. -/
def natMailKey (m : MailM) : String × String × String :=
  (m.mapp, m.email, m.subject)

/-- The Audit natural key of §3: `(folder_id, url, audit_date)`. -/
def natAuditKey (a : AuditM) : String × Option String × Option String :=
  (a.mapp, a.hemsida, a.audit_datum)

/-- The composite key string `` `${m.mapp}|${m.email}|${m.subject}` `` of
`lib/data-reader.ts` line 105. -/
def encMailKey (m : MailM) : String :=
  m.mapp ++ "|" ++ m.email ++ "|" ++ m.subject

/-- The composite key string `` `${a.mapp}|${a.hemsida}|${a.audit_datum}` ``
of `lib/data-reader.ts` line 106 (`null` fields render as `"null"`). -/
def encAuditKey (a : AuditM) : String :=
  a.mapp ++ "|" ++ optNullStr a.hemsida ++ "|" ++ optNullStr a.audit_datum

/-- Modelled from the spec: `mergeLinkedData` of the deployed
`lib/normalize.ts` is absent from the sources.  Per §4.3 it returns the
bundle with the Mail and Audit lists deduplicated by their §3 natural keys
and everything else unchanged — Company capability flags are derived at
surface time, never stored (§3 invariant), and `NormalizedData` carries no
flag fields. -/
def mergeLinkedData (d : NormalizedData) : NormalizedData :=
  { d with
    mails := specDedupByKey natMailKey [] d.mails
    audits := specDedupByKey natAuditKey [] d.audits }

/-- What extraction returns for one spreadsheet file
(`getDataFromExcel`). -/
structure XlsxData where
  companies : List NormalizedCompany
  people : List PersonM
  mails : List MailM
  audits : List AuditM
  evaluations : List EvalM
  summary : Option SummaryM
deriving DecidableEq, Repr

/-- A file of a date directory, abstracted to the entity lists its
extraction step (`getDataFromSQLite` / `getDataFromExcel`) would produce:
a `.db` file yields companies and people, an `.xlsx` file yields the six
extracted lists, and any other file is skipped by both loops. -/
inductive SourceFile where
  | dbFile (companies : List NormalizedCompany) (people : List PersonM)
  | xlsxFile (name : String) (d : XlsxData)
  | otherFile (name : String)
deriving DecidableEq, Repr

/-- The mutable state of `readDateData`'s two loops. -/
structure ReaderState where
  companies : List NormalizedCompany
  people : List PersonM
  mails : List MailM
  audits : List AuditM
  evaluations : List EvalM
  summary : Option SummaryM
  src : String
  preferCompanySource : Bool
  preferPeopleSource : Bool
deriving DecidableEq, Repr

/-- Initial state of `readDateData`. -/
def initReaderState : ReaderState :=
  { companies := [], people := [], mails := [], audits := [], evaluations := []
    summary := none, src := "unknown"
    preferCompanySource := false, preferPeopleSource := false }

/-- First loop of `readDateData`: SQLite databases push companies and
people. -/
def readDbStep (s : ReaderState) : SourceFile → ReaderState
  | .dbFile cs ps =>
      { s with companies := s.companies ++ cs, people := s.people ++ ps, src := "sqlite" }
  | _ => s

/-- Lines 66-73 of `readDateData`: company precedence for one spreadsheet. -/
def xlsxCompaniesStep (name : String) (d : XlsxData) (s : ReaderState) : ReaderState :=
  if d.companies ≠ [] then
    if jsIncludes name "final" || jsIncludes name "kungorelser" then
      { s with companies := d.companies, preferCompanySource := true }
    else if !s.preferCompanySource && s.companies = [] then
      { s with companies := d.companies }
    else s
  else s

/-- Lines 75-82: people precedence for one spreadsheet. -/
def xlsxPeopleStep (name : String) (d : XlsxData) (s : ReaderState) : ReaderState :=
  if d.people ≠ [] then
    if jsIncludes name "final" then
      { s with people := d.people, preferPeopleSource := true }
    else if !s.preferPeopleSource && s.people = [] then
      { s with people := d.people }
    else s
  else s

/-- Lines 84-85: mails and audits are additive. -/
def xlsxMailAuditStep (d : XlsxData) (s : ReaderState) : ReaderState :=
  { s with mails := s.mails ++ d.mails, audits := s.audits ++ d.audits }

/-- Lines 87-89: first non-empty evaluations win. -/
def xlsxEvalStep (d : XlsxData) (s : ReaderState) : ReaderState :=
  if d.evaluations ≠ [] ∧ s.evaluations = [] then { s with evaluations := d.evaluations }
  else s

/-- Lines 91-93: first summary wins. -/
def xlsxSummaryStep (d : XlsxData) (s : ReaderState) : ReaderState :=
  if d.summary.isSome ∧ s.summary = none then { s with summary := d.summary }
  else s

/-- Lines 95-101: the source label chain. -/
def xlsxSrcStep (name : String) (s : ReaderState) : ReaderState :=
  if jsIncludes name "final" then { s with src := "excel-final" }
  else if jsIncludes name "mail_ready" && s.src = "unknown" then
    { s with src := "excel-mail" }
  else if s.src = "unknown" then { s with src := "excel" }
  else s

/-- Second loop of `readDateData` (lines 61-103): spreadsheet precedence for
companies and people, additive mails/audits, first-non-empty evaluations and
summary, and the source label chain, in the source's statement order. -/
def readXlsxStep (s : ReaderState) : SourceFile → ReaderState
  | .xlsxFile name d =>
      xlsxSrcStep name
        (xlsxSummaryStep d
          (xlsxEvalStep d
            (xlsxMailAuditStep d
              (xlsxPeopleStep name d
                (xlsxCompaniesStep name d s)))))
  | _ => s

/-- `readDateData` from `lib/data-reader.ts` over the files of one date
directory, in directory-listing order: the `.db` loop, the `.xlsx` loop,
composite-key deduplication of mails and audits, then `mergeLinkedData`.
Returns the merged bundle and the source label. -/
def readDateData (files : List SourceFile) : NormalizedData × String :=
  let s1 := files.foldl readDbStep initReaderState
  let s2 := files.foldl readXlsxStep s1
  let d : NormalizedData :=
    { companies := s2.companies
      people := s2.people
      mails := deduplicateByCompositeKey encMailKey [] s2.mails
      audits := deduplicateByCompositeKey encAuditKey [] s2.audits
      evaluations := s2.evaluations
      summary := s2.summary }
  (mergeLinkedData d, s2.src)

/-! ## The Index Store (from `dashboard/lib/index-db.ts`).

The SQLite file is modelled as an explicit state: one row list per table plus
the optional `_schema_version` table (`none` = table absent; `some none` =
table present but empty; `some (some v)` = version `v` stored).  Row order
models storage order.  File-system existence (`isIndexAvailable`) and WAL
pragmas are I/O details outside the model. -/

/-- A row of the `companies` table (all columns TEXT; inserts use
`|| ""`). -/
structure CompanyRow where
  date : String
  mapp : String
  orgnr : String
  foretagsnamn : String
  segment : String
  lan : String
  epost : String
  emails_found : String
  domain_verified : String
  domain_guess : String
  domain_status : String
  phones_found : String
  ska_fa_sajt : String
  preview_url : String
  search_text : String
deriving DecidableEq, Repr

/-- A row of the `people` table. -/
structure PersonRow where
  date : String
  mapp : String
  kungorelse_id : String
  foretagsnamn : String
  orgnr : String
  roll : String
  personnummer : String
  fornamn : String
  mellannamn : String
  efternamn : String
  adress : String
  postnummer : String
  ort : String
  search_text : String
deriving DecidableEq, Repr

/-- A row of the `mails` table. -/
structure MailRow where
  date : String
  mapp : String
  folder : String
  company : String
  email : String
  subject : String
  domain_status : String
  mail_status : String
  site_preview_url : String
deriving DecidableEq, Repr

/-- A row of the `audits` table (score columns are REAL and may be NULL). -/
structure AuditRow where
  date : String
  mapp : String
  foretagsnamn : String
  hemsida : String
  audit_datum : String
  bransch : String
  helhet : Option Rat
  design : Option Rat
  innehall : Option Rat
  anvandbarhet : Option Rat
  mobil : Option Rat
  seo : Option Rat
deriving DecidableEq, Repr

/-- A row of the `evaluations` table. -/
structure EvalRow where
  date : String
  mapp : String
  kungorelse_id : String
  foretagsnamn : String
  ska_fa_sajt : String
  konfidens : String
  preview_url : String
deriving DecidableEq, Repr

/-- A row of the `indexed_dates` table (`date` is the primary key). -/
structure DateRow where
  date : String
  updated_at : String
deriving DecidableEq, Repr

/-- The Index Store state. -/
structure IndexDb where
  versionTable : Option (Option Int)
  companies : List CompanyRow
  people : List PersonRow
  mails : List MailRow
  audits : List AuditRow
  evaluations : List EvalRow
  indexedDates : List DateRow
deriving DecidableEq, Repr

/-- `SCHEMA_VERSION` (`index-db.ts` line 22). -/
def SCHEMA_VERSION : Int := 2

/-- `dropAllTables` (`index-db.ts` lines 180-191): drops the five content
tables, `indexed_dates` and `_schema_version`. -/
def dropAllTables (_db : IndexDb) : IndexDb :=
  { versionTable := none, companies := [], people := [], mails := []
    audits := [], evaluations := [], indexedDates := [] }

/-- `migrateIfNeeded` (`index-db.ts` lines 152-178): no `_schema_version`
table, or a stored version (defaulting to 0 when the table is empty)
strictly below `SCHEMA_VERSION`, triggers `dropAllTables`. -/
def migrateIfNeeded (db : IndexDb) : IndexDb :=
  match db.versionTable with
  | none => dropAllTables db
  | some row =>
      let currentVersion := row.getD 0
      if currentVersion < SCHEMA_VERSION then dropAllTables db else db

/-- `ensureIndexDb` (`index-db.ts` lines 24-146): run `migrateIfNeeded`,
`CREATE TABLE IF NOT EXISTS` for every table (create-if-missing keeps
existing rows; in the model the content tables always exist as lists), then
`INSERT OR REPLACE` the current schema version. -/
def ensureIndexDb (db : IndexDb) : IndexDb :=
  let db1 := migrateIfNeeded db
  { db1 with versionTable := some (some SCHEMA_VERSION) }

/-- `buildSearchText` (`index-db.ts` lines 381-386): drop `null` and empty
parts (`filter(Boolean)`), join with spaces, lowercase. -/
def buildSearchText (parts : List (Option String)) : String :=
  jsToLower (String.intercalate " " ((parts.filterMap id).filter (fun s => s ≠ "")))

/-- String-or-empty for nullable TEXT inserts (`x || ""`). -/
def orEmpty : Option String → String
  | none => ""
  | some s => s

/-- The `companies` insert of `indexDateData` (lines 264-292). -/
def companyToRow (date : String) (c : NormalizedCompany) : CompanyRow :=
  { date := date
    mapp := c.mapp
    orgnr := c.orgnr
    foretagsnamn := c.foretagsnamn
    segment := orEmpty c.segment
    lan := orEmpty c.lan
    epost := orEmpty c.epost
    emails_found := orEmpty c.emails_found
    domain_verified := orEmpty c.domain_verified
    domain_guess := orEmpty c.domain_guess
    domain_status := orEmpty c.domain_status
    phones_found := orEmpty c.phones_found
    ska_fa_sajt := orEmpty c.ska_fa_sajt
    preview_url := orEmpty c.preview_url
    search_text := buildSearchText
      [some c.foretagsnamn, some c.orgnr, some c.mapp, c.sate, c.segment,
       c.lan, c.epost, c.emails_found, c.verksamhet] }

/-- The `people` insert of `indexDateData` (lines 294-321). -/
def personToRow (date : String) (p : PersonM) : PersonRow :=
  { date := date
    mapp := p.mapp
    kungorelse_id := p.kungorelse_id
    foretagsnamn := p.foretagsnamn
    orgnr := p.orgnr
    roll := orEmpty p.roll
    personnummer := orEmpty p.personnummer
    fornamn := orEmpty p.fornamn
    mellannamn := orEmpty p.mellannamn
    efternamn := orEmpty p.efternamn
    adress := orEmpty p.adress
    postnummer := orEmpty p.postnummer
    ort := orEmpty p.ort
    search_text := buildSearchText
      [p.fornamn, p.mellannamn, p.efternamn, some p.foretagsnamn,
       some p.orgnr, some p.kungorelse_id, some p.mapp, p.roll, p.ort] }

/-- The `mails` insert of `indexDateData` (lines 323-335). -/
def mailToRow (date : String) (m : MailM) : MailRow :=
  { date := date
    mapp := m.mapp
    folder := m.folder
    company := m.company
    email := m.email
    subject := m.subject
    domain_status := orEmpty m.domain_status
    mail_status := orEmpty m.mail_status
    site_preview_url := orEmpty m.site_preview_url }

/-- The `audits` insert of `indexDateData` (lines 337-352). -/
def auditToRow (date : String) (a : AuditM) : AuditRow :=
  { date := date
    mapp := a.mapp
    foretagsnamn := a.foretagsnamn
    hemsida := orEmpty a.hemsida
    audit_datum := orEmpty a.audit_datum
    bransch := orEmpty a.bransch
    helhet := a.helhet
    design := a.design
    innehall := a.innehall
    anvandbarhet := a.anvandbarhet
    mobil := a.mobil
    seo := a.seo }

/-- The `evaluations` insert of `indexDateData` (lines 354-364). -/
def evalToRow (date : String) (e : EvalM) : EvalRow :=
  { date := date
    mapp := e.mapp
    kungorelse_id := e.kungorelse_id
    foretagsnamn := e.foretagsnamn
    ska_fa_sajt := orEmpty e.ska_fa_sajt
    konfidens := orEmpty e.konfidens
    preview_url := orEmpty e.preview_url }

/-- The `indexed_dates` upsert (lines 251-255): update `updated_at` when the
date exists, else append. -/
def upsertIndexedDate (date now : String) (rows : List DateRow) : List DateRow :=
  if rows.any (fun r => r.date = date) then
    rows.map (fun r => if r.date = date then { r with updated_at := now } else r)
  else rows ++ [{ date := date, updated_at := now }]

/-- The transaction body of `indexDateData` (lines 257-367): delete every
row of the five content tables for the date, insert the bundle's rows, and
upsert the date-completion marker. -/
def runIndexTransaction (date now : String) (data : NormalizedData) (db1 : IndexDb) :
    IndexDb :=
  { db1 with
    companies := db1.companies.filter (fun r => r.date ≠ date)
      ++ data.companies.map (companyToRow date)
    people := db1.people.filter (fun r => r.date ≠ date)
      ++ data.people.map (personToRow date)
    mails := db1.mails.filter (fun r => r.date ≠ date)
      ++ data.mails.map (mailToRow date)
    audits := db1.audits.filter (fun r => r.date ≠ date)
      ++ data.audits.map (auditToRow date)
    evaluations := db1.evaluations.filter (fun r => r.date ≠ date)
      ++ data.evaluations.map (evalToRow date)
    indexedDates := upsertIndexedDate date now db1.indexedDates }

/-- `indexDateData` (`index-db.ts` lines 193-371): open/ensure the store,
then run the delete-insert-upsert transaction.
`new Date().toISOString()` is the explicit `now` parameter. -/
def indexDateData (date now : String) (data : NormalizedData) (db : IndexDb) : IndexDb :=
  runIndexTransaction date now data (ensureIndexDb db)

/-- `getIndexedDates` (`index-db.ts` lines 373-379): the set of dates in
`indexed_dates` (file-existence shortcut abstracted away). -/
def getIndexedDates (db : IndexDb) : List String :=
  (ensureIndexDb db).indexedDates.map (·.date)

/-! ## The search route (from `dashboard/app/api/search/route.ts`). -/

/-- The six derived capability flags attached to a surfaced company. -/
structure EnrichedFlags where
  hasMail : Bool
  hasAudit : Bool
  hasPreview : Bool
  worthySite : Bool
  hasEmail : Bool
  hasDomain : Bool
deriving DecidableEq, Repr

/-- `querySearchFromIndex` lines 352-384: the per-request capability-flag
recomputation.  Each `Set` of the source is the list of `mapp` values its
`SELECT DISTINCT` returns; membership is unaffected by `DISTINCT`.  The
company's own row fields come back from `SELECT *` as the stored strings. -/
def enrichFlags (db : IndexDb) (c : CompanyRow) : EnrichedFlags :=
  let mailCompanies := (db.mails.filter (fun m => m.mapp ≠ "")).map (·.mapp)
  let auditCompanies := (db.audits.filter (fun a => a.mapp ≠ "")).map (·.mapp)
  let previewCompanies :=
    (db.mails.filter (fun m => m.site_preview_url ≠ "")).map (·.mapp)
      ++ (db.evaluations.filter (fun e => e.preview_url ≠ "")).map (·.mapp)
  let worthyCompanies :=
    (db.evaluations.filter (fun e => jsToLower e.ska_fa_sajt = "ja")).map (·.mapp)
  let emailCompanies := (db.mails.filter (fun m => m.email ≠ "")).map (·.mapp)
  let domainCompanies :=
    (db.companies.filter (fun r => r.domain_verified ≠ "" ∨ r.domain_guess ≠ "")).map (·.mapp)
  { hasMail := c.mapp ∈ mailCompanies
    hasAudit := c.mapp ∈ auditCompanies
    hasPreview := c.mapp ∈ previewCompanies || c.preview_url ≠ ""
    worthySite := c.mapp ∈ worthyCompanies || jsToLower c.ska_fa_sajt = "ja"
    hasEmail := c.mapp ∈ emailCompanies || c.epost ≠ "" || c.emails_found ≠ ""
    hasDomain := c.mapp ∈ domainCompanies || c.domain_verified ≠ "" || c.domain_guess ≠ "" }

/-- `querySearchFromIndex` lines 340-350: the Person result list and its
total.  People are queried only when a free-text query is present; the list
is capped by `LIMIT` while the count is not.  `LIKE '%q%'` on the stored
lowercase `search_text` with a lowercased pattern is substring
containment. -/
def querySearchPeople (db : IndexDb) (query : String) (limit : Nat) :
    List PersonRow × Nat :=
  if query ≠ "" then
    let rows := db.people.filter (fun p => jsIncludes p.search_text (jsToLower query))
    (rows.take limit, rows.length)
  else ([], 0)

/-- `matchesPersonFilters` (search route lines 232-248), used by the
non-indexed fallback path: with an empty query no person ever matches. -/
def matchesPersonFilters (p : PersonM) (query : String) : Bool :=
  if query = "" then false
  else
    jsIncludes
      (buildSearchText
        [p.fornamn, p.efternamn, some p.foretagsnamn, some p.orgnr, p.ort, some p.mapp])
      query

/-! ## The totals route (from `dashboard/app/api/data/totals/route.ts`). -/

/-- The SQL expression `COALESCE(NULLIF(mapp,''), NULLIF(orgnr,''))`:
the company natural key, `NULL` (`none`) when both parts are empty. -/
def companyKeyOf (r : CompanyRow) : Option String :=
  if r.mapp ≠ "" then some r.mapp
  else if r.orgnr ≠ "" then some r.orgnr
  else none

/-- `COUNT(DISTINCT expr)`: the number of distinct non-`NULL` values. -/
def countDistinct (l : List (Option String)) : Nat :=
  (l.filterMap id).dedup.length

/-- The scalar counters of `queryTotalsFromIndex` (totals route lines
155-197; the three `GROUP BY` histograms are not modelled — no claim touches
them). -/
structure TotalsResult where
  totalCompanies : Nat
  totalPeople : Nat
  totalMails : Nat
  totalAudits : Nat
  companiesWithDomain : Nat
  companiesWithEmail : Nat
  companiesWithPhone : Nat
  companiesWithMail : Nat
  companiesWithAudit : Nat
  companiesWithPreview : Nat
  companiesWorthySite : Nat
deriving DecidableEq, Repr

/-- `queryTotalsFromIndex` (totals route lines 155-197).
`companiesWithPreview` is the SQL `UNION` of three key selections followed by
`COUNT(DISTINCT key)` over non-`NULL`, non-empty keys; the others are
`COUNT(DISTINCT …)` with their respective `WHERE` clauses. -/
def queryTotalsFromIndex (db : IndexDb) : TotalsResult :=
  { totalCompanies := countDistinct (db.companies.map companyKeyOf)
    totalPeople :=
      (db.people.map (fun p => p.personnummer ++ "-" ++ p.kungorelse_id)).dedup.length
    totalMails := db.mails.length
    totalAudits := db.audits.length
    companiesWithDomain := countDistinct
      ((db.companies.filter (fun r => r.domain_verified ≠ "" ∨ r.domain_guess ≠ "")).map companyKeyOf)
    companiesWithEmail := countDistinct
      ((db.companies.filter (fun r => r.epost ≠ "" ∨ r.emails_found ≠ "")).map companyKeyOf)
    companiesWithPhone := countDistinct
      ((db.companies.filter (fun r => r.phones_found ≠ "")).map companyKeyOf)
    companiesWithMail :=
      ((db.mails.filter (fun m => m.mapp ≠ "")).map (·.mapp)).dedup.length
    companiesWithAudit :=
      ((db.audits.filter (fun a => a.mapp ≠ "")).map (·.mapp)).dedup.length
    companiesWithPreview :=
      ((((db.companies.filter (fun r => r.preview_url ≠ "")).filterMap companyKeyOf)
          ++ (db.mails.filter (fun m => m.site_preview_url ≠ "")).map (·.mapp)
          ++ (db.evaluations.filter (fun e => e.preview_url ≠ "")).map (·.mapp)).filter
        (fun k => k ≠ "")).dedup.length
    companiesWorthySite := countDistinct
      ((db.companies.filter (fun r => jsToLower r.ska_fa_sajt = "ja")).map companyKeyOf) }

/-! ## Lazy indexing before a request (both routes' `ensureIndexForDates`). -/

/-- The loop body of `ensureIndexForDates`: `readDateData`'s outcome per date
is given as an `Except` (an exception models a throw).  There is no
`try`/`catch` in the source loop, so an error propagates immediately and the
remaining dates are never processed. -/
def ensureIndexLoop (now : String) (indexed : List String) :
    List (String × Except String NormalizedData) → IndexDb → Except String IndexDb
  | [], db => .ok db
  | (date, r) :: rest, db =>
      if date ∈ indexed then ensureIndexLoop now indexed rest db
      else
        match r with
        | .error e => .error e
        | .ok data => ensureIndexLoop now indexed rest (indexDateData date now data db)

/-- `ensureIndexForDates` (search route lines 256-264 and totals route lines
250-259): snapshot the indexed-date set once, then index every
not-yet-indexed date in order.  A throw while reading or indexing one date
escapes the loop; the route's outer `catch` then turns the whole request
into a 500 failure response. -/
def ensureIndexForDates (now : String)
    (pairs : List (String × Except String NormalizedData)) (db : IndexDb) :
    Except String IndexDb :=
  ensureIndexLoop now (getIndexedDates db) pairs db

/-! ## The Source Locator (from `dashboard/lib/data-paths.ts`). -/

/-- A directory entry as returned by `readdir(..., { withFileTypes: true })`. -/
structure DirEntry where
  name : String
  isDirectory : Bool
deriving DecidableEq, Repr

/-- The file-system as the locator sees it: each candidate root either does
not exist (`none`) or holds a list of entries. -/
structure Fs where
  persistentRoot : Option (List DirEntry)
  localRoot : Option (List DirEntry)
deriving DecidableEq, Repr

/-- `PERSISTENT_DISK_DIR` (default `/var/data`). -/
def PERSISTENT_DISK_DIR : String := "/var/data"

/-- `LOCAL_DATA_DIR`. -/
def LOCAL_DATA_DIR : String := "../data_input"

/-- `path.flatten` for the cases used here. -/
def pathJoin (a b : String) : String := a ++ "/" ++ b

/-- The regex `/^\d{8}$/`. -/
def isDate8 (s : String) : Bool :=
  s.length = 8 && s.toList.all Char.isDigit

/-- `Set` insertion followed by `Array.from`: keep the first occurrence. -/
def setDedup : List String → List String → List String
  | _, [] => []
  | seen, x :: xs =>
      if x ∈ seen then setDedup seen xs else x :: setDedup (x :: seen) xs

/-- Insertion step for descending string sort (code-point comparison on
character lists). -/
def insertDesc (x : String) : List String → List String
  | [] => [x]
  | y :: ys => if x.data < y.data then y :: insertDesc x ys else x :: y :: ys

/-- `.sort((a, b) => b.localeCompare(a))`: descending lexicographic order
(locale comparison coincides with code-point order on 8-digit dates). -/
def sortDesc (l : List String) : List String :=
  l.foldr insertDesc []

/-- The date-named subdirectories of one root. -/
def dateNamesOf (entries : List DirEntry) : List String :=
  (entries.filter (fun e => e.isDirectory && isDate8 e.name)).map (·.name)

/-- `getAllDateDirs` (`data-paths.ts` lines 22-39): scan the persistent root
when it exists, otherwise the local root when that exists; collect date-named
subdirectories into a `Set` and sort descending. -/
def getAllDateDirs (fs : Fs) : List String :=
  match fs.persistentRoot with
  | some entries => sortDesc (setDedup [] (dateNamesOf entries))
  | none =>
      match fs.localRoot with
      | some entries => sortDesc (setDedup [] (dateNamesOf entries))
      | none => []

/-- `getExistingDateDir` (`data-paths.ts` lines 8-20): when the persistent
root exists, resolve only against it (no fallback); otherwise try the local
date path. -/
def getExistingDateDir (fs : Fs) (date : String) : Option String :=
  match fs.persistentRoot with
  | some entries =>
      if entries.any (fun e => e.name = date) then some (pathJoin PERSISTENT_DISK_DIR date)
      else none
  | none =>
      match fs.localRoot with
      | some entries =>
          if entries.any (fun e => e.name = date) then some (pathJoin LOCAL_DATA_DIR date)
          else none
      | none => none

/-- The claim's reading of the "list everything" query, stated from the
spec's words for comparison: the union of date-named subdirectories across
*all* existing roots, presented like `getAllDateDirs` (deduplicated,
descending). -/
def specUnionDateDirs (fs : Fs) : List String :=
  let p := match fs.persistentRoot with | some entries => dateNamesOf entries | none => []
  let l := match fs.localRoot with | some entries => dateNamesOf entries | none => []
  sortDesc (setDedup [] (p ++ l))

/-- The first root in priority order that exists, with its base path. -/
def firstExistingRoot (fs : Fs) : Option (String × List DirEntry) :=
  match fs.persistentRoot with
  | some entries => some (PERSISTENT_DISK_DIR, entries)
  | none =>
      match fs.localRoot with
      | some entries => some (LOCAL_DATA_DIR, entries)
      | none => none

/-! ## Concrete fixtures for counterexamples and witnesses. -/

/-- A company with all fields empty/null (explicit literal, used to build
concrete companies). -/
def blankCompany : NormalizedCompany :=
  { mapp := "", kungorelse_id := "", foretagsnamn := "", orgnr := ""
    registreringsdatum := none, publiceringsdatum := none, lan := none
    sate := none, postadress := none, epost := none, typ := none
    bildat := none, verksamhet := none, rakenskapsar := none
    aktiekapital := none, antal_aktier := none, firmateckning := none
    styrelseledamoter := none, styrelsesuppleanter := none
    styrelse_ovrigt := none, segment := none, kalla_url := none
    domain_guess := none, domain_verified := none, domain_confidence := none
    domain_status := none, emails_found := none, phones_found := none
    people_count := none, research_done := none, ska_fa_sajt := none
    konfidens := none, preview_url := none, audit_link := none }

/-- An extracted spreadsheet with no data. -/
def emptyXlsx : XlsxData :=
  { companies := [], people := [], mails := [], audits := [], evaluations := []
    summary := none }

/-- An empty bundle. -/
def emptyNormalizedData : NormalizedData :=
  { companies := [], people := [], mails := [], audits := [], evaluations := []
    summary := none }

/-- A freshly created (post-versioning) empty Index Store. -/
def emptyIndexDb : IndexDb :=
  { versionTable := some (some SCHEMA_VERSION), companies := [], people := []
    mails := [], audits := [], evaluations := [], indexedDates := [] }

/-! ## C9 — Source Locator root handling. -/

/-- A file-system where both roots exist and hold different dates. -/
def fsBothRoots : Fs :=
  { persistentRoot := some [{ name := "20260101", isDirectory := true }]
    localRoot := some [{ name := "20260102", isDirectory := true }] }

/-- C9 (counterexample): with both roots existing, `getAllDateDirs` is not
the union over all existing roots — the local root's date `20260102` is
missing from the result, which contains only the persistent root's
`20260101`. -/
theorem c9_locator_counterexample :
    getAllDateDirs fsBothRoots ≠ specUnionDateDirs fsBothRoots ∧
    "20260102" ∈ specUnionDateDirs fsBothRoots ∧
    "20260102" ∉ getAllDateDirs fsBothRoots ∧
    getAllDateDirs fsBothRoots = ["20260101"] := by
  decide

/-- C9 (amended): both queries are resolved against the first root in
priority order that exists — `getAllDateDirs` lists the date-named
subdirectories of that root only (never a union of roots), and
`getExistingDateDir` returns that root's date directory or nothing. -/
theorem c9_locator_first_root (fs : Fs) (date : String) :
    getExistingDateDir fs date =
      (match firstExistingRoot fs with
       | none => none
       | some (base, entries) =>
           if entries.any (fun e => e.name = date) then some (pathJoin base date)
           else none) ∧
    getAllDateDirs fs =
      (match firstExistingRoot fs with
       | none => []
       | some (_, entries) => sortDesc (setDedup [] (dateNamesOf entries))) := by
  cases h1 : fs.persistentRoot <;> cases h2 : fs.localRoot <;>
    simp [getExistingDateDir, getAllDateDirs, firstExistingRoot, h1, h2]

/-! ## C2 — Index Store schema versioning. -/

/-- A store recorded under schema version 3 (greater than the compiled-in
constant 2) with one indexed date. -/
def dbVersionAhead : IndexDb :=
  { versionTable := some (some 3), companies := [], people := [], mails := []
    audits := [], evaluations := []
    indexedDates := [{ date := "20260101", updated_at := "2026-01-01T00:00:00Z" }] }

/-- C2 (counterexample): a stored schema version different from but not
smaller than the constant (3 vs 2) does *not* drop the tables — the indexed
date survives opening, so the set of indexed dates readable from the store
is not empty. -/
theorem c2_schema_counterexample :
    dbVersionAhead.versionTable = some (some 3) ∧
    SCHEMA_VERSION = 2 ∧
    getIndexedDates dbVersionAhead = ["20260101"] ∧
    (ensureIndexDb dbVersionAhead).indexedDates ≠ [] := by
  decide

/-- C2 (amended): opening the store drops and recreates all content tables
exactly when no schema version is recorded (missing version table, or a
present-but-empty one, which reads as version 0) or the stored version is
strictly smaller than `SCHEMA_VERSION`; immediately afterwards every content
table is empty, no indexed date is readable, and the current version is
recorded.  A stored version greater than or equal to the constant leaves the
tables untouched. -/
theorem c2_schema_migration_amended (db : IndexDb)
    (h : db.versionTable = none ∨
      ∃ r, db.versionTable = some r ∧ r.getD 0 < SCHEMA_VERSION) :
    (ensureIndexDb db).companies = [] ∧
    (ensureIndexDb db).people = [] ∧
    (ensureIndexDb db).mails = [] ∧
    (ensureIndexDb db).audits = [] ∧
    (ensureIndexDb db).evaluations = [] ∧
    (ensureIndexDb db).indexedDates = [] ∧
    getIndexedDates db = [] ∧
    (ensureIndexDb db).versionTable = some (some SCHEMA_VERSION) := by
  rcases h with h | ⟨r, hr, hlt⟩
  · simp [ensureIndexDb, migrateIfNeeded, dropAllTables, getIndexedDates, h]
  · simp [ensureIndexDb, migrateIfNeeded, dropAllTables, getIndexedDates, hr, hlt]

/-- A pre-versioning store holding data. -/
def dbPreVersioning : IndexDb :=
  { versionTable := none, companies := [], people := [], mails := []
    audits := [], evaluations := []
    indexedDates := [{ date := "20251231", updated_at := "2025-12-31T00:00:00Z" }] }

/-- C2 (witness): opening a pre-versioning store (no version recorded) wipes
it — no indexed date is readable afterwards. -/
theorem c2_schema_migration_witness :
    (ensureIndexDb dbPreVersioning).indexedDates = [] ∧
    getIndexedDates dbPreVersioning = [] := by
  have h := c2_schema_migration_amended dbPreVersioning (Or.inl rfl)
  exact ⟨h.2.2.2.2.2.1, h.2.2.2.2.2.2.1⟩

/-! ## C6 — one failing date aborts the whole lazy-indexing pass. -/

/-- C6 (code evaluated at the failing input): with two not-yet-indexed dates
of which the first throws while being read, `ensureIndexForDates` propagates
the exception — the second date is never indexed and the route's outer
`catch` turns the request into a 500 failure response, contradicting the
spec's skip-and-continue failure mode (spec §4.4/§7), which the non-indexed
fallback loop of the same route *does* implement with a per-date
`try`/`catch`. -/
theorem c6_failing_date_aborts_pass :
    ensureIndexForDates "2026-02-01T00:00:00Z"
      [("20260101", Except.error "ENOENT: unreadable source file"),
       ("20260102", Except.ok emptyNormalizedData)]
      emptyIndexDb = Except.error "ENOENT: unreadable source file" := by
  rfl

/-! ## C8 — no Person results without a free-text query. -/

/-- C8: with an empty free-text query the indexed people query returns an
empty list and a zero total — the people branch of `querySearchFromIndex`
consults only the query, so no segment, region or capability filter can make
it non-empty — and the fallback path's `matchesPersonFilters` rejects every
person. -/
theorem c8_no_people_without_query (db : IndexDb) (limit : Nat) (p : PersonM) :
    querySearchPeople db "" limit = ([], 0) ∧
    matchesPersonFilters p "" = false := by
  constructor
  · simp [querySearchPeople]
  · rfl

/-! ## C5 — derived capability flags. -/

/-- The claim's reading of `worthy_site`, stated from the spec's words: the
company's own `ska_fa_sajt` is `"ja"` case-insensitively, or a *linked*
Evaluation (again, an empty folder id links nothing) has verdict `"ja"`. -/
def claimedWorthySite (db : IndexDb) (c : CompanyRow) : Prop :=
  jsToLower c.ska_fa_sajt = "ja" ∨
    ∃ e ∈ db.evaluations, e.mapp = c.mapp ∧ e.mapp ≠ "" ∧ jsToLower e.ska_fa_sajt = "ja"

/-- A company row keyed only by `orgnr` (empty folder id). -/
def companyNoFolder : CompanyRow :=
  { date := "20260101", mapp := "", orgnr := "5560001122", foretagsnamn := "Acme AB"
    segment := "", lan := "", epost := "", emails_found := "", domain_verified := ""
    domain_guess := "", domain_status := "", phones_found := "", ska_fa_sajt := ""
    preview_url := "", search_text := "acme ab 5560001122" }

/-- An evaluation row with an empty folder id and verdict `"Ja"`. -/
def evalRowNoFolder : EvalRow :=
  { date := "20260101", mapp := "", kungorelse_id := "", foretagsnamn := ""
    ska_fa_sajt := "Ja", konfidens := "", preview_url := "" }

/-- An index holding only that company and that evaluation. -/
def dbNoFolder : IndexDb :=
  { versionTable := some (some SCHEMA_VERSION), companies := [companyNoFolder]
    people := [], mails := [], audits := [], evaluations := [evalRowNoFolder]
    indexedDates := [] }

/-- C5 (counterexample): the surfaced `worthySite` flag is *not* equivalent
to "own field is ja, or a linked Evaluation says ja" — the evaluation
subquery does not exclude the empty folder id, so a company without a folder
id inherits `worthySite = true` from an unlinked empty-`mapp` evaluation
even though its own field is not `"ja"`. -/
theorem c5_worthysite_counterexample :
    (enrichFlags dbNoFolder companyNoFolder).worthySite = true ∧
    ¬ claimedWorthySite dbNoFolder companyNoFolder := by
  constructor
  · decide
  · unfold claimedWorthySite
    decide

/-- C5 (amended): the flags surfaced by `querySearchFromIndex` are
recomputed from the current Mail/Audit/Evaluation tables (they are functions
of those tables; the `companies` table stores no flag columns), and they
satisfy: `hasMail` holds iff some Mail row carries the company's non-empty
folder id, while `worthySite` holds iff the company's own `ska_fa_sajt`
equals `"ja"` case-insensitively or some Evaluation row with the *same*
folder id — empty included, since the evaluation subquery does not filter
out the empty id — has verdict `"ja"`. -/
theorem c5_flags_amended (db : IndexDb) (c : CompanyRow) :
    ((enrichFlags db c).hasMail = true ↔
      ∃ m ∈ db.mails, m.mapp = c.mapp ∧ m.mapp ≠ "") ∧
    ((enrichFlags db c).worthySite = true ↔
      jsToLower c.ska_fa_sajt = "ja" ∨
        ∃ e ∈ db.evaluations, e.mapp = c.mapp ∧ jsToLower e.ska_fa_sajt = "ja") := by
  constructor
  · simp only [enrichFlags, List.mem_map, List.mem_filter, decide_eq_true_eq]
    constructor
    · rintro ⟨m, ⟨hm, hne⟩, hmapp⟩
      exact ⟨m, hm, hmapp, by simpa using hne⟩
    · rintro ⟨m, hm, hmapp, hne⟩
      exact ⟨m, ⟨hm, by simpa using hne⟩, hmapp⟩
  · simp only [enrichFlags, Bool.or_eq_true, List.mem_map, List.mem_filter,
      decide_eq_true_eq]
    constructor
    · rintro (⟨e, ⟨he, hja⟩, hmapp⟩ | hja)
      · exact Or.inr ⟨e, he, hmapp, hja⟩
      · exact Or.inl hja
    · rintro (hja | ⟨e, he, hmapp, hja⟩)
      · exact Or.inr hja
      · exact Or.inl ⟨e, ⟨he, hja⟩, hmapp⟩

/-! ## C3 — idempotence of `indexDateData`. -/

theorem ensureIndexDb_of_current (db : IndexDb)
    (h : db.versionTable = some (some SCHEMA_VERSION)) : ensureIndexDb db = db := by
  cases db
  simp_all [ensureIndexDb, migrateIfNeeded, SCHEMA_VERSION]

theorem indexDateData_versionTable (date now : String) (data : NormalizedData)
    (db : IndexDb) :
    (indexDateData date now data db).versionTable = some (some SCHEMA_VERSION) := by
  rfl

/-- Delete-for-date followed by inserts whose rows all fail the keep
predicate: re-filtering gives back the original deletion. -/
theorem delete_insert_delete {α β : Type} (p : α → Bool)
    (l : List α) (g : β → α) (B : List β) (hg : ∀ b, p (g b) = false) :
    ((l.filter p) ++ B.map g).filter p = l.filter p := by
  rw [List.filter_append]
  have h1 : (l.filter p).filter p = l.filter p := by
    rw [List.filter_filter]
    simp
  have h2 : (B.map g).filter p = [] := by
    rw [List.filter_eq_nil_iff]
    intro a ha
    rcases List.mem_map.mp ha with ⟨b, _, rfl⟩
    simp [hg b]
  rw [h1, h2, List.append_nil]

/-- After delete-and-insert, the rows selected by the date predicate are
exactly the inserted ones. -/
theorem select_date_rows {α β : Type} (p q : α → Bool)
    (l : List α) (g : β → α) (B : List β)
    (hpq : ∀ a, p a = true → q a = false) (hq : ∀ b, q (g b) = true) :
    ((l.filter p) ++ B.map g).filter q = B.map g := by
  rw [List.filter_append]
  have h1 : (l.filter p).filter q = [] := by
    rw [List.filter_eq_nil_iff]
    intro a ha
    rcases List.mem_filter.mp ha with ⟨_, hp⟩
    simp [hpq a hp]
  have h2 : (B.map g).filter q = B.map g := by
    rw [List.filter_eq_self]
    intro a ha
    rcases List.mem_map.mp ha with ⟨b, _, rfl⟩
    simp [hq b]
  rw [h1, h2, List.nil_append]

theorem upsert_date_of_update (date now : String) (r : DateRow) :
    (if r.date = date then { r with updated_at := now } else r).date = r.date := by
  by_cases h : r.date = date <;> simp [h]

theorem upsertIndexedDate_idem (date now : String) (rows : List DateRow) :
    upsertIndexedDate date now (upsertIndexedDate date now rows) =
      upsertIndexedDate date now rows := by
  by_cases hmem : ∃ r ∈ rows, r.date = date
  · have hany : (rows.any fun r => r.date = date) = true := by
      rw [List.any_eq_true]
      simpa using hmem
    have step1 : upsertIndexedDate date now rows =
        rows.map (fun r => if r.date = date then { r with updated_at := now } else r) := by
      simp [upsertIndexedDate, hany]
    rcases hmem with ⟨r, hr, hrd⟩
    have hany2 : ((rows.map (fun r => if r.date = date then { r with updated_at := now } else r)).any
        fun r => r.date = date) = true := by
      rw [List.any_eq_true]
      refine ⟨(fun r => if r.date = date then { r with updated_at := now } else r) r,
        List.mem_map_of_mem _ hr, ?_⟩
      simp [hrd]
    rw [step1]
    simp only [upsertIndexedDate, hany2, if_true, List.map_map]
    apply List.map_congr_left
    intro a _
    by_cases ha : a.date = date <;> simp [Function.comp, ha]
  · have hall : ∀ r ∈ rows, ¬ r.date = date := by
      push_neg at hmem
      exact hmem
    have hany : (rows.any fun r => r.date = date) = false := by
      rw [List.any_eq_false]
      simpa using hall
    have step1 : upsertIndexedDate date now rows =
        rows ++ [{ date := date, updated_at := now }] := by
      simp [upsertIndexedDate, hany]
    rw [step1]
    have hany2 : ((rows ++ [({ date := date, updated_at := now } : DateRow)]).any
        fun r => r.date = date) = true := by
      rw [List.any_eq_true]
      exact ⟨{ date := date, updated_at := now },
        List.mem_append_right _ (List.mem_singleton_self _), by simp⟩
    simp only [upsertIndexedDate, hany2, if_true]
    conv_rhs => rw [← List.map_id (rows ++ [({ date := date, updated_at := now } : DateRow)])]
    apply List.map_congr_left
    intro a ha
    rcases List.mem_append.mp ha with ha | ha
    · simp [hall a ha]
    · simp only [List.mem_singleton] at ha
      subst ha
      simp

theorem indexDb_ext (x y : IndexDb)
    (h1 : x.versionTable = y.versionTable) (h2 : x.companies = y.companies)
    (h3 : x.people = y.people) (h4 : x.mails = y.mails) (h5 : x.audits = y.audits)
    (h6 : x.evaluations = y.evaluations) (h7 : x.indexedDates = y.indexedDates) :
    x = y := by
  cases x
  cases y
  simp_all

theorem runIndexTransaction_idem (date now : String) (data : NormalizedData)
    (X : IndexDb) :
    runIndexTransaction date now data (runIndexTransaction date now data X) =
      runIndexTransaction date now data X := by
  refine indexDb_ext _ _ ?_ ?_ ?_ ?_ ?_ ?_ ?_ <;> simp only [runIndexTransaction]
  · rw [delete_insert_delete _ _ _ _
      (fun b => show decide (¬ (companyToRow date b).date = date) = false by simp [companyToRow])]
  · rw [delete_insert_delete _ _ _ _
      (fun b => show decide (¬ (personToRow date b).date = date) = false by simp [personToRow])]
  · rw [delete_insert_delete _ _ _ _
      (fun b => show decide (¬ (mailToRow date b).date = date) = false by simp [mailToRow])]
  · rw [delete_insert_delete _ _ _ _
      (fun b => show decide (¬ (auditToRow date b).date = date) = false by simp [auditToRow])]
  · rw [delete_insert_delete _ _ _ _
      (fun b => show decide (¬ (evalToRow date b).date = date) = false by simp [evalToRow])]
  · exact upsertIndexedDate_idem date now _

theorem upsertIndexedDate_mem (date now : String) (rows : List DateRow) :
    date ∈ (upsertIndexedDate date now rows).map (·.date) := by
  by_cases hmem : ∃ r ∈ rows, r.date = date
  · have hany : (rows.any fun r => r.date = date) = true := by
      rw [List.any_eq_true]
      simpa using hmem
    rcases hmem with ⟨r, hr, hrd⟩
    simp only [upsertIndexedDate, hany, if_true]
    rw [List.mem_map]
    refine ⟨(fun r => if r.date = date then { r with updated_at := now } else r) r,
      List.mem_map_of_mem _ hr, ?_⟩
    simp [hrd]
  · have hany : (rows.any fun r => r.date = date) = false := by
      rw [List.any_eq_false]
      intro r hr
      push_neg at hmem
      simpa using hmem r hr
    simp [upsertIndexedDate, hany]

/-- C3: indexing a date is idempotent — with the timestamp fixed, running
`indexDateData` twice with the same date and bundle leaves the Index Store
in exactly the state of running it once, because each run deletes all rows
for the date, re-inserts the bundle's rows, and upserts the completion
marker.  Moreover, after one run each content table's rows for that date are
exactly the rows inserted from the bundle (so re-indexing never duplicates
rows), and the date is recorded in `indexed_dates`. -/
theorem c3_indexDateData_idempotent (date now : String) (data : NormalizedData)
    (db : IndexDb) :
    indexDateData date now data (indexDateData date now data db) =
        indexDateData date now data db ∧
    (indexDateData date now data db).companies.filter (fun r => r.date = date) =
        data.companies.map (companyToRow date) ∧
    (indexDateData date now data db).people.filter (fun r => r.date = date) =
        data.people.map (personToRow date) ∧
    (indexDateData date now data db).mails.filter (fun r => r.date = date) =
        data.mails.map (mailToRow date) ∧
    (indexDateData date now data db).audits.filter (fun r => r.date = date) =
        data.audits.map (auditToRow date) ∧
    (indexDateData date now data db).evaluations.filter (fun r => r.date = date) =
        data.evaluations.map (evalToRow date) ∧
    date ∈ (indexDateData date now data db).indexedDates.map (·.date) := by
  refine ⟨?_, ?_, ?_, ?_, ?_, ?_, ?_⟩
  · have hens : ensureIndexDb (runIndexTransaction date now data (ensureIndexDb db)) =
        runIndexTransaction date now data (ensureIndexDb db) :=
      ensureIndexDb_of_current _ rfl
    show runIndexTransaction date now data
        (ensureIndexDb (runIndexTransaction date now data (ensureIndexDb db))) =
      runIndexTransaction date now data (ensureIndexDb db)
    rw [hens]
    exact runIndexTransaction_idem date now data _
  · simp only [indexDateData, runIndexTransaction]
    exact select_date_rows _ _ _ _ _ (fun a h => by simpa using h)
      (fun b => show decide ((companyToRow date b).date = date) = true by simp [companyToRow])
  · simp only [indexDateData, runIndexTransaction]
    exact select_date_rows _ _ _ _ _ (fun a h => by simpa using h)
      (fun b => show decide ((personToRow date b).date = date) = true by simp [personToRow])
  · simp only [indexDateData, runIndexTransaction]
    exact select_date_rows _ _ _ _ _ (fun a h => by simpa using h)
      (fun b => show decide ((mailToRow date b).date = date) = true by simp [mailToRow])
  · simp only [indexDateData, runIndexTransaction]
    exact select_date_rows _ _ _ _ _ (fun a h => by simpa using h)
      (fun b => show decide ((auditToRow date b).date = date) = true by simp [auditToRow])
  · simp only [indexDateData, runIndexTransaction]
    exact select_date_rows _ _ _ _ _ (fun a h => by simpa using h)
      (fun b => show decide ((evalToRow date b).date = date) = true by simp [evalToRow])
  · exact upsertIndexedDate_mem date now _

/-! ## C7 — distinct-count totals. -/

theorem toFinset_filter_ne (L : List String) :
    (L.filter (fun k => k ≠ "")).toFinset = L.toFinset.erase "" := by
  ext x
  simp [List.mem_filter, Finset.mem_erase, and_comm]

/-- C7: `queryTotalsFromIndex` counts companies by distinct natural key —
`totalCompanies` is the cardinality of the set of keys (folder id when
non-empty, else org number; rows with neither have no key and are not
counted) over all indexed rows of all dates, so adding a row whose key
already occurs (e.g. the same company under another date) leaves
`totalCompanies` unchanged — and `companiesWithPreview` is the cardinality
of the *union* of the three per-source key sets (companies with a preview
URL, mails with a preview-site URL, evaluations with a preview URL), never a
sum of per-source or per-date counts. -/
theorem c7_totals_distinct_counts (db : IndexDb) (r : CompanyRow) :
    (queryTotalsFromIndex db).totalCompanies =
        ((db.companies.filterMap companyKeyOf).toFinset).card ∧
    ((∃ r0 ∈ db.companies, companyKeyOf r0 = companyKeyOf r) →
      (queryTotalsFromIndex { db with companies := r :: db.companies }).totalCompanies =
        (queryTotalsFromIndex db).totalCompanies) ∧
    (queryTotalsFromIndex db).companiesWithPreview =
        ((((db.companies.filter (fun x => x.preview_url ≠ "")).filterMap companyKeyOf).toFinset ∪
            ((db.mails.filter (fun m => m.site_preview_url ≠ "")).map (·.mapp)).toFinset ∪
            ((db.evaluations.filter (fun e => e.preview_url ≠ "")).map (·.mapp)).toFinset).erase
          "").card := by
  refine ⟨?_, ?_, ?_⟩
  · show ((db.companies.map companyKeyOf).filterMap id).dedup.length = _
    rw [List.filterMap_map, ← List.card_toFinset]
    rfl
  · intro ⟨r0, hr0, hkey⟩
    show (((r :: db.companies).map companyKeyOf).filterMap id).dedup.length =
      ((db.companies.map companyKeyOf).filterMap id).dedup.length
    rw [List.map_cons]
    cases hk : companyKeyOf r with
    | none =>
        rw [show List.filterMap id (none :: List.map companyKeyOf db.companies) =
          List.filterMap id (List.map companyKeyOf db.companies) from rfl]
    | some a =>
        rw [show List.filterMap id (some a :: List.map companyKeyOf db.companies) =
          a :: List.filterMap id (List.map companyKeyOf db.companies) from rfl]
        have hmem : a ∈ (db.companies.map companyKeyOf).filterMap id := by
          rw [List.mem_filterMap]
          exact ⟨some a, List.mem_map.mpr ⟨r0, hr0, by rw [hkey, hk]⟩, rfl⟩
        rw [List.dedup_cons_of_mem hmem]
  · show (_ : List String).dedup.length = _
    rw [← List.card_toFinset, toFinset_filter_ne]
    congr 1
    rw [List.toFinset_append, List.toFinset_append]

/-- The same company key (`orgnr`-based) indexed under two dates. -/
def acmeRow1 : CompanyRow :=
  { date := "20260101", mapp := "", orgnr := "ACME-556677-8899", foretagsnamn := "Acme AB"
    segment := "", lan := "", epost := "", emails_found := "", domain_verified := ""
    domain_guess := "", domain_status := "", phones_found := "", ska_fa_sajt := ""
    preview_url := "", search_text := "acme ab acme-556677-8899" }

/-- The second date's row for the same company. -/
def acmeRow2 : CompanyRow :=
  { acmeRow1 with date := "20260102" }

/-- An index holding the second date's Acme row. -/
def dbAcme : IndexDb :=
  { versionTable := some (some SCHEMA_VERSION), companies := [acmeRow2]
    people := [], mails := [], audits := [], evaluations := [], indexedDates := [] }

/-- C7 (witness): the same `org_number` under dates `20260101` and
`20260102` is counted once — adding the first date's row does not change
`totalCompanies`, which is 1. -/
theorem c7_totals_distinct_counts_witness :
    (queryTotalsFromIndex { dbAcme with companies := acmeRow1 :: dbAcme.companies }).totalCompanies =
        (queryTotalsFromIndex dbAcme).totalCompanies ∧
    (queryTotalsFromIndex dbAcme).totalCompanies = 1 := by
  constructor
  · exact (c7_totals_distinct_counts dbAcme acmeRow1).2.1
      ⟨acmeRow2, by decide, by decide⟩
  · decide

/-! ## C1 — company-source precedence in `readDateData`. -/

/-- A spreadsheet whose name carries the `final` or `kungorelser` marker and
which contains company rows: exactly the files taking the overwrite branch
of `readDateData` line 67. -/
def companyMarkedFile : SourceFile → Bool
  | .xlsxFile name d =>
      (jsIncludes name "final" || jsIncludes name "kungorelser") && !d.companies.isEmpty
  | _ => false

/-- The last marked file of the iteration, tracked like the loop does. -/
def lastMarkedAux : Option SourceFile → List SourceFile → Option SourceFile
  | acc, [] => acc
  | acc, f :: fs => lastMarkedAux (if companyMarkedFile f then some f else acc) fs

/-- The last file in directory-listing order that takes the company
overwrite branch. -/
def lastCompanyMarked (files : List SourceFile) : Option SourceFile :=
  lastMarkedAux none files

/-- The company rows an `.xlsx` file contributes. -/
def xlsxCompanies : SourceFile → List NormalizedCompany
  | .xlsxFile _ d => d.companies
  | _ => []

theorem lastMarkedAux_absorb (l : List SourceFile) :
    ∀ acc, lastMarkedAux acc l =
      (match lastMarkedAux none l with
       | some g => some g
       | none => acc) := by
  induction l with
  | nil => intro acc; rfl
  | cons f fs ih =>
      intro acc
      show lastMarkedAux (if companyMarkedFile f then some f else acc) fs = _
      by_cases hm : companyMarkedFile f
      · rw [if_pos hm, ih (some f)]
        have hr : lastMarkedAux none (f :: fs) = lastMarkedAux (some f) fs := by
          show lastMarkedAux (if companyMarkedFile f then some f else none) fs = _
          rw [if_pos hm]
        rw [hr, ih (some f)]
        cases lastMarkedAux none fs <;> rfl
      · rw [if_neg hm, ih acc]
        have hr : lastMarkedAux none (f :: fs) = lastMarkedAux none fs := by
          show lastMarkedAux (if companyMarkedFile f then some f else none) fs = _
          rw [if_neg hm]
        rw [hr]

theorem lastMarkedAux_none_forall (l : List SourceFile)
    (h : lastMarkedAux none l = none) : ∀ f ∈ l, companyMarkedFile f = false := by
  induction l with
  | nil => intro f hf; cases hf
  | cons f fs ih =>
      have hstep : lastMarkedAux none (f :: fs) =
          (match lastMarkedAux none fs with
           | some g => some g
           | none => if companyMarkedFile f then some f else none) := by
        show lastMarkedAux (if companyMarkedFile f then some f else none) fs = _
        rw [lastMarkedAux_absorb]
      rw [hstep] at h
      cases hfs : lastMarkedAux none fs with
      | some g => rw [hfs] at h; cases h
      | none =>
          rw [hfs] at h
          intro x hx
          rcases List.mem_cons.mp hx with rfl | hx
          · by_cases hm : companyMarkedFile x
            · rw [if_pos hm] at h; cases h
            · simpa using hm
          · exact ih hfs x hx

theorem readXlsxStep_companies_proj (s : ReaderState) (name : String) (d : XlsxData) :
    (readXlsxStep s (.xlsxFile name d)).companies =
      (if d.companies ≠ [] then
        if jsIncludes name "final" || jsIncludes name "kungorelser" then d.companies
        else if !s.preferCompanySource && s.companies = [] then d.companies
        else s.companies
      else s.companies) := by
  simp only [readXlsxStep, xlsxSrcStep, xlsxSummaryStep, xlsxEvalStep, xlsxMailAuditStep, xlsxPeopleStep, xlsxCompaniesStep, apply_ite (f := ReaderState.companies), ite_self]

theorem readXlsxStep_preferC_proj (s : ReaderState) (name : String) (d : XlsxData) :
    (readXlsxStep s (.xlsxFile name d)).preferCompanySource =
      (if d.companies ≠ [] then
        if jsIncludes name "final" || jsIncludes name "kungorelser" then true
        else s.preferCompanySource
      else s.preferCompanySource) := by
  simp only [readXlsxStep, xlsxSrcStep, xlsxSummaryStep, xlsxEvalStep, xlsxMailAuditStep, xlsxPeopleStep, xlsxCompaniesStep, apply_ite (f := ReaderState.preferCompanySource), ite_self]

theorem readXlsxStep_unmarked (s : ReaderState) (f : SourceFile)
    (h : companyMarkedFile f = false) (hp : s.preferCompanySource = true) :
    (readXlsxStep s f).companies = s.companies ∧
    (readXlsxStep s f).preferCompanySource = true := by
  cases f with
  | dbFile cs ps => exact ⟨rfl, hp⟩
  | otherFile n => exact ⟨rfl, hp⟩
  | xlsxFile name d =>
      rw [readXlsxStep_companies_proj, readXlsxStep_preferC_proj]
      by_cases hc : d.companies = []
      · simp [hc, hp]
      · have hne : d.companies.isEmpty = false := by
          simpa [List.isEmpty_iff] using hc
        have hm : (jsIncludes name "final" || jsIncludes name "kungorelser") = false := by
          simpa [companyMarkedFile, hne] using h
        simp [hc, hm, hp]

theorem foldl_xlsx_preserve (l : List SourceFile) :
    ∀ s : ReaderState, (∀ f ∈ l, companyMarkedFile f = false) →
      s.preferCompanySource = true →
      (l.foldl readXlsxStep s).companies = s.companies ∧
      (l.foldl readXlsxStep s).preferCompanySource = true := by
  induction l with
  | nil => intro s _ hp; exact ⟨rfl, hp⟩
  | cons f fs ih =>
      intro s hall hp
      have hstep := readXlsxStep_unmarked s f (hall f (List.mem_cons_self f fs)) hp
      have ihr := ih (readXlsxStep s f)
        (fun g hg => hall g (List.mem_cons_of_mem f hg)) hstep.2
      exact ⟨by rw [List.foldl_cons, ihr.1, hstep.1], by rw [List.foldl_cons, ihr.2]⟩

theorem readXlsxStep_marked (s : ReaderState) (name : String) (d : XlsxData)
    (h : companyMarkedFile (.xlsxFile name d) = true) :
    (readXlsxStep s (.xlsxFile name d)).companies = d.companies ∧
    (readXlsxStep s (.xlsxFile name d)).preferCompanySource = true := by
  rw [companyMarkedFile, Bool.and_eq_true] at h
  obtain ⟨hmarker, hne⟩ := h
  have hc : d.companies ≠ [] := by
    intro hnil
    rw [hnil] at hne
    simp at hne
  rw [readXlsxStep_companies_proj, readXlsxStep_preferC_proj]
  simp [hc, hmarker]

theorem foldl_xlsx_lastMarked (l : List SourceFile) :
    ∀ (s : ReaderState) (f : SourceFile), lastMarkedAux none l = some f →
      (l.foldl readXlsxStep s).companies = xlsxCompanies f ∧
      (l.foldl readXlsxStep s).preferCompanySource = true := by
  induction l with
  | nil => intro s f h; cases h
  | cons x xs ih =>
      intro s f h
      have hstep : lastMarkedAux none (x :: xs) =
          (match lastMarkedAux none xs with
           | some g => some g
           | none => if companyMarkedFile x then some x else none) := by
        show lastMarkedAux (if companyMarkedFile x then some x else none) xs = _
        rw [lastMarkedAux_absorb]
      rw [hstep] at h
      cases hxs : lastMarkedAux none xs with
      | some g =>
          rw [hxs] at h
          cases h
          exact ih (readXlsxStep s x) f hxs
      | none =>
          rw [hxs] at h
          by_cases hm : companyMarkedFile x
          · rw [if_pos hm] at h
            injection h with h
            subst h
            have hall := lastMarkedAux_none_forall xs hxs
            cases x with
            | dbFile cs ps => simp [companyMarkedFile] at hm
            | otherFile n => simp [companyMarkedFile] at hm
            | xlsxFile name d =>
                have hx := readXlsxStep_marked s name d hm
                have hfold := foldl_xlsx_preserve xs (readXlsxStep s (.xlsxFile name d)) hall hx.2
                exact ⟨by rw [List.foldl_cons, hfold.1, hx.1]; rfl,
                  by rw [List.foldl_cons, hfold.2]⟩
          · rw [if_neg hm] at h
            cases h

/-- C1 (amended): when a date directory holds more than one marked company
source, the *last*-iterated spreadsheet whose filename carries the `final`
*or* `kungorelser` marker (and which contains company rows) supplies the
Company list of `readDateData` — the marked-overwrite branch fires for both
markers, so the `final` file's rows survive only when no later-iterated
marked file follows; no other file's Company rows appear in the output once
any marked file is present. -/
theorem c1_company_precedence_amended (files : List SourceFile) (f : SourceFile)
    (h : lastCompanyMarked files = some f) :
    (readDateData files).1.companies = xlsxCompanies f := by
  simp only [readDateData, mergeLinkedData]
  exact (foldl_xlsx_lastMarked files (files.foldl readDbStep initReaderState) f h).1

/-- The `final` file's company row. -/
def companyA : NormalizedCompany := { blankCompany with mapp := "A" }

/-- The `kungorelser` file's company row. -/
def companyB : NormalizedCompany := { blankCompany with mapp := "B" }

/-- A date directory holding a `final` export (iterated first) and a
`kungorelser` export (iterated later), both with company rows. -/
def filesFinalThenKungorelser : List SourceFile :=
  [.xlsxFile "final_20260101.xlsx" { emptyXlsx with companies := [companyA] },
   .xlsxFile "kungorelser_20260101.xlsx" { emptyXlsx with companies := [companyB] }]

/-- C1 (counterexample): with both a `final` and a `kungorelser` spreadsheet
present, the Company list does *not* equal the `final` file's rows — the
`kungorelser` file is iterated later and overwrites it, so the output is the
`kungorelser` file's rows. -/
theorem c1_company_precedence_counterexample :
    (readDateData filesFinalThenKungorelser).1.companies ≠ [companyA] ∧
    (readDateData filesFinalThenKungorelser).1.companies = [companyB] := by
  decide

/-- A directory whose only marked file is the `final` export, plus an
unmarked mail spreadsheet. -/
def filesFinalOnly : List SourceFile :=
  [.xlsxFile "mail_ready_20260101.xlsx" { emptyXlsx with companies := [companyB] },
   .xlsxFile "final_20260101.xlsx" { emptyXlsx with companies := [companyA] }]

/-- C1 (witness): when the `final` file is the last marked file, the Company
list equals exactly its rows. -/
theorem c1_company_precedence_witness :
    (readDateData filesFinalOnly).1.companies = [companyA] := by
  have h : lastCompanyMarked filesFinalOnly =
      some (.xlsxFile "final_20260101.xlsx" { emptyXlsx with companies := [companyA] }) := by
    decide
  exact c1_company_precedence_amended filesFinalOnly _ h

/-! ## C4 — composite-key deduplication of mails and audits. -/

/-- The mail rows an `.xlsx` file contributes. -/
def xlsxMails : SourceFile → List MailM
  | .xlsxFile _ d => d.mails
  | _ => []

/-- The audit rows an `.xlsx` file contributes. -/
def xlsxAudits : SourceFile → List AuditM
  | .xlsxFile _ d => d.audits
  | _ => []

/-- One date's combined Mail input in file-iteration order (database files
contribute no mails; spreadsheets are additive in listing order). -/
def combinedMails (files : List SourceFile) : List MailM :=
  (files.map xlsxMails).flatten

/-- One date's combined Audit input in file-iteration order. -/
def combinedAudits (files : List SourceFile) : List AuditM :=
  (files.map xlsxAudits).flatten

/-- Rendering of a Mail natural key as the reader's composite key string. -/
def encTriple (t : String × String × String) : String :=
  t.1 ++ "|" ++ t.2.1 ++ "|" ++ t.2.2

/-- Rendering of an Audit natural key as the reader's composite key string
(`null` renders as `"null"`). -/
def encOptTriple (t : String × Option String × Option String) : String :=
  t.1 ++ "|" ++ optNullStr t.2.1 ++ "|" ++ optNullStr t.2.2

theorem foldl_db_mails (l : List SourceFile) :
    ∀ s : ReaderState, (l.foldl readDbStep s).mails = s.mails := by
  induction l with
  | nil => intro s; rfl
  | cons f fs ih =>
      intro s
      rw [List.foldl_cons, ih]
      cases f <;> rfl

theorem foldl_db_audits (l : List SourceFile) :
    ∀ s : ReaderState, (l.foldl readDbStep s).audits = s.audits := by
  induction l with
  | nil => intro s; rfl
  | cons f fs ih =>
      intro s
      rw [List.foldl_cons, ih]
      cases f <;> rfl

theorem readXlsxStep_mails (s : ReaderState) (f : SourceFile) :
    (readXlsxStep s f).mails = s.mails ++ xlsxMails f := by
  cases f with
  | dbFile cs ps => exact (List.append_nil _).symm
  | otherFile n => exact (List.append_nil _).symm
  | xlsxFile name d =>
      simp only [readXlsxStep, xlsxSrcStep, xlsxSummaryStep, xlsxEvalStep, xlsxMailAuditStep, xlsxPeopleStep, xlsxCompaniesStep, apply_ite (f := ReaderState.mails), ite_self]
      rfl

theorem readXlsxStep_audits (s : ReaderState) (f : SourceFile) :
    (readXlsxStep s f).audits = s.audits ++ xlsxAudits f := by
  cases f with
  | dbFile cs ps => exact (List.append_nil _).symm
  | otherFile n => exact (List.append_nil _).symm
  | xlsxFile name d =>
      simp only [readXlsxStep, xlsxSrcStep, xlsxSummaryStep, xlsxEvalStep, xlsxMailAuditStep, xlsxPeopleStep, xlsxCompaniesStep, apply_ite (f := ReaderState.audits), ite_self]
      rfl

theorem foldl_xlsx_mails (l : List SourceFile) :
    ∀ s : ReaderState, (l.foldl readXlsxStep s).mails = s.mails ++ (l.map xlsxMails).flatten := by
  induction l with
  | nil => intro s; exact (List.append_nil _).symm
  | cons f fs ih =>
      intro s
      rw [List.foldl_cons, ih, readXlsxStep_mails, List.map_cons, List.flatten_cons,
        List.append_assoc]

theorem foldl_xlsx_audits (l : List SourceFile) :
    ∀ s : ReaderState, (l.foldl readXlsxStep s).audits = s.audits ++ (l.map xlsxAudits).flatten := by
  induction l with
  | nil => intro s; exact (List.append_nil _).symm
  | cons f fs ih =>
      intro s
      rw [List.foldl_cons, ih, readXlsxStep_audits, List.map_cons, List.flatten_cons,
        List.append_assoc]

theorem dedupKey_mem {α : Type} (f : α → String) :
    ∀ (l : List α) (seen : List String) (x : α),
      x ∈ deduplicateByCompositeKey f seen l → x ∈ l ∧ f x ∉ seen ∧ f x ≠ "" := by
  intro l
  induction l with
  | nil => intro seen x hx; cases hx
  | cons y ys ih =>
      intro seen x hx
      simp only [deduplicateByCompositeKey] at hx
      by_cases h : f y = "" ∨ f y ∈ seen
      · rw [if_pos h] at hx
        obtain ⟨h1, h2, h3⟩ := ih seen x hx
        exact ⟨List.mem_cons_of_mem _ h1, h2, h3⟩
      · rw [if_neg h] at hx
        push_neg at h
        rcases List.mem_cons.mp hx with rfl | hx
        · exact ⟨List.mem_cons_self _ _, h.2, h.1⟩
        · obtain ⟨h1, h2, h3⟩ := ih (f y :: seen) x hx
          exact ⟨List.mem_cons_of_mem _ h1,
            fun hc => h2 (List.mem_cons_of_mem _ hc), h3⟩

theorem dedupKey_nodup {α : Type} (f : α → String) :
    ∀ (l : List α) (seen : List String),
      ((deduplicateByCompositeKey f seen l).map f).Nodup := by
  intro l
  induction l with
  | nil => intro seen; exact List.nodup_nil
  | cons y ys ih =>
      intro seen
      simp only [deduplicateByCompositeKey]
      by_cases h : f y = "" ∨ f y ∈ seen
      · rw [if_pos h]
        exact ih seen
      · rw [if_neg h]
        rw [List.map_cons, List.nodup_cons]
        refine ⟨?_, ih (f y :: seen)⟩
        intro hmem
        rcases List.mem_map.mp hmem with ⟨x, hx, hfx⟩
        exact (dedupKey_mem f ys (f y :: seen) x hx).2.1
          (hfx ▸ List.mem_cons_self _ _)

theorem dedupKey_filter {α : Type} (f : α → String) :
    ∀ (l : List α) (seen : List String) (K : String), K ≠ "" → K ∉ seen →
      (deduplicateByCompositeKey f seen l).filter (fun x => f x = K) =
        (l.find? (fun x => f x = K)).toList := by
  intro l
  induction l with
  | nil => intro seen K _ _; rfl
  | cons y ys ih =>
      intro seen K hK hKs
      simp only [deduplicateByCompositeKey]
      by_cases h : f y = "" ∨ f y ∈ seen
      · rw [if_pos h]
        have hyK : (f y = K) = False := by
          rcases h with h | h
          · simp [h ▸ hK.symm, fun hc : f y = K => hK (hc ▸ h)]
          · exact eq_false (fun hc : f y = K => hKs (hc ▸ h))
        rw [List.find?_cons]
        rw [show (decide (f y = K)) = false by simp [hyK]]
        exact ih seen K hK hKs
      · rw [if_neg h]
        push_neg at h
        by_cases hy : f y = K
        · rw [List.filter_cons_of_pos (by simp [hy]), List.find?_cons,
            show (decide (f y = K)) = true by simp [hy]]
          have hrest : (deduplicateByCompositeKey f (f y :: seen) ys).filter
              (fun x => f x = K) = [] := by
            rw [List.filter_eq_nil_iff]
            intro x hx
            have := (dedupKey_mem f ys (f y :: seen) x hx).2.1
            simp only [hy] at this
            intro hc
            exact this (by simp [decide_eq_true_eq.mp hc])
          rw [hrest]
          rfl
        · rw [List.filter_cons_of_neg (by simp [hy]), List.find?_cons,
            show (decide (f y = K)) = false by simp [hy]]
          exact ih (f y :: seen) K hK
            (by
              intro hc
              rcases List.mem_cons.mp hc with hc | hc
              · exact hy hc.symm
              · exact hKs hc)

theorem specDedup_id {α κ : Type} [DecidableEq κ] (f : α → κ) :
    ∀ (l : List α) (seen : List κ), ((l.map f).Nodup) →
      (∀ x ∈ l, f x ∉ seen) → specDedupByKey f seen l = l := by
  intro l
  induction l with
  | nil => intro seen _ _; rfl
  | cons y ys ih =>
      intro seen hnd hs
      simp only [specDedupByKey]
      rw [if_neg (hs y (List.mem_cons_self _ _))]
      rw [List.map_cons, List.nodup_cons] at hnd
      congr 1
      refine ih (f y :: seen) hnd.2 ?_
      intro x hx hc
      rcases List.mem_cons.mp hc with hc | hc
      · exact hnd.1 (hc ▸ List.mem_map_of_mem f hx)
      · exact hs x (List.mem_cons_of_mem _ hx) hc

theorem find?_pred_congr {α : Type} (l : List α) (p q : α → Bool)
    (h : ∀ x ∈ l, p x = q x) : l.find? p = l.find? q := by
  induction l with
  | nil => rfl
  | cons y ys ih =>
      rw [List.find?_cons, List.find?_cons, h y (List.mem_cons_self _ _)]
      cases q y
      · exact ih (fun x hx => h x (List.mem_cons_of_mem _ hx))
      · rfl

/-- The generic behavior of the reader's dedup pass followed by the merge
pass, for one natural key `K` whose string rendering collides with no other
key in the input: the output keeps exactly the first input record with key
`K`. -/
theorem dedup_chain_filter {α κ : Type} [DecidableEq α] [DecidableEq κ]
    (nk : α → κ) (et : κ → String) (l : List α) (K : κ)
    (hne : et K ≠ "")
    (hcoll : ∀ x ∈ l, et (nk x) = et K → nk x = K)
    (hex : ∃ x ∈ l, nk x = K) :
    ∃ m₀, l.find? (fun x => nk x = K) = some m₀ ∧
      (specDedupByKey nk []
          (deduplicateByCompositeKey (fun x => et (nk x)) [] l)).filter
        (fun x => nk x = K) = [m₀] := by
  have hnodupNat :
      ((deduplicateByCompositeKey (fun x => et (nk x)) [] l).map nk).Nodup := by
    apply List.Nodup.of_map et
    rw [List.map_map]
    exact dedupKey_nodup (fun x => et (nk x)) l []
  have hid : specDedupByKey nk []
      (deduplicateByCompositeKey (fun x => et (nk x)) [] l) =
      deduplicateByCompositeKey (fun x => et (nk x)) [] l :=
    specDedup_id nk _ [] hnodupNat (by simp)
  rw [hid]
  have hfe : (deduplicateByCompositeKey (fun x => et (nk x)) [] l).filter
      (fun x => nk x = K) =
      (deduplicateByCompositeKey (fun x => et (nk x)) [] l).filter
      (fun x => et (nk x) = et K) := by
    apply List.filter_congr
    intro x hxD
    have hxl := (dedupKey_mem (fun x => et (nk x)) l [] x hxD).1
    by_cases hh : nk x = K
    · simp [hh]
    · have hcc : ¬ et (nk x) = et K := fun hc => hh (hcoll x hxl hc)
      simp [hh, hcc]
  rw [hfe, dedupKey_filter (fun x => et (nk x)) l [] (et K) hne (by simp)]
  have hfq : l.find? (fun x => et (nk x) = et K) = l.find? (fun x => nk x = K) := by
    apply find?_pred_congr
    intro x hx
    by_cases hh : nk x = K
    · simp [hh]
    · have hcc : ¬ et (nk x) = et K := fun hc => hh (hcoll x hx hc)
      simp [hh, hcc]
  rw [hfq]
  obtain ⟨x, hx, hxk⟩ := hex
  cases hfind : l.find? (fun x => nk x = K) with
  | none =>
      exfalso
      have := List.find?_eq_none.mp hfind x hx
      simp [hxk] at this
  | some m₀ => exact ⟨m₀, rfl, rfl⟩

theorem readDateData_mails_eq (files : List SourceFile) :
    (readDateData files).1.mails =
      specDedupByKey natMailKey []
        (deduplicateByCompositeKey (fun m => encTriple (natMailKey m)) []
          (combinedMails files)) := by
  simp only [readDateData, mergeLinkedData]
  rw [foldl_xlsx_mails, foldl_db_mails]
  rfl

theorem readDateData_audits_eq (files : List SourceFile) :
    (readDateData files).1.audits =
      specDedupByKey natAuditKey []
        (deduplicateByCompositeKey (fun a => encOptTriple (natAuditKey a)) []
          (combinedAudits files)) := by
  simp only [readDateData, mergeLinkedData]
  rw [foldl_xlsx_audits, foldl_db_audits]
  rfl

theorem encTriple_ne_empty (K : String × String × String) : encTriple K ≠ "" := by
  intro h
  have := congrArg String.length h
  simp only [encTriple, String.length_append] at this
  have h1 : ("|" : String).length = 1 := rfl
  have h0 : ("" : String).length = 0 := rfl
  omega

theorem encOptTriple_ne_empty (K : String × Option String × Option String) :
    encOptTriple K ≠ "" := by
  intro h
  have := congrArg String.length h
  simp only [encOptTriple, String.length_append] at this
  have h1 : ("|" : String).length = 1 := rfl
  have h0 : ("" : String).length = 0 := rfl
  omega

/-- C4 (amended): collapsing is driven by the rendered key string
`` `${mapp}|${email}|${subject}` `` (resp.
`` `${mapp}|${hemsida}|${audit_datum}` `` with `null` rendered as
`"null"`), not by the key tuple itself.  For any natural key occurring in
the combined input whose rendering is not also the rendering of a
*different* key in that input, the output contains exactly one record with
that key — the first in file-iteration order.  (When two distinct keys
render alike, the later one's records are dropped entirely, which is what
the counterexample exhibits.) -/
theorem c4_dedup_first_seen_amended :
    (∀ (files : List SourceFile) (K : String × String × String),
      (∃ m ∈ combinedMails files, natMailKey m = K) →
      (∀ m ∈ combinedMails files, encTriple (natMailKey m) = encTriple K →
        natMailKey m = K) →
      ∃ m₀, (combinedMails files).find? (fun m => natMailKey m = K) = some m₀ ∧
        (readDateData files).1.mails.filter (fun m => natMailKey m = K) = [m₀]) ∧
    (∀ (files : List SourceFile) (K : String × Option String × Option String),
      (∃ a ∈ combinedAudits files, natAuditKey a = K) →
      (∀ a ∈ combinedAudits files, encOptTriple (natAuditKey a) = encOptTriple K →
        natAuditKey a = K) →
      ∃ a₀, (combinedAudits files).find? (fun a => natAuditKey a = K) = some a₀ ∧
        (readDateData files).1.audits.filter (fun a => natAuditKey a = K) = [a₀]) := by
  constructor
  · intro files K hex hcoll
    rw [readDateData_mails_eq]
    exact dedup_chain_filter natMailKey encTriple (combinedMails files) K
      (encTriple_ne_empty K) hcoll hex
  · intro files K hex hcoll
    rw [readDateData_audits_eq]
    exact dedup_chain_filter natAuditKey encOptTriple (combinedAudits files) K
      (encOptTriple_ne_empty K) hcoll hex

/-- A mail whose fields inject a `|` so its rendered key collides with a
different natural key. -/
def mailCollider : MailM :=
  { mapp := "A|x", folder := "", company := "", email := "", subject := "s"
    mail_content := some "collider body", cost_sek := none, domain_status := none
    mail_status := none, site_preview_url := none, audit_note := none }

/-- First record with natural key `("A", "x|", "s")`. -/
def mailDupFirst : MailM :=
  { mapp := "A", folder := "", company := "", email := "x|", subject := "s"
    mail_content := some "first body", cost_sek := none, domain_status := none
    mail_status := none, site_preview_url := none, audit_note := none }

/-- Second record with the same natural key, different body. -/
def mailDupSecond : MailM :=
  { mailDupFirst with mail_content := some "second body" }

/-- A date directory with one mail spreadsheet holding the three records. -/
def filesMailCollision : List SourceFile :=
  [.xlsxFile "mail_ready_20260101.xlsx"
    { emptyXlsx with mails := [mailCollider, mailDupFirst, mailDupSecond] }]

/-- C4 (counterexample): the input holds a pair of distinct Mail records
with the identical natural key `("A", "x|", "s")`, yet `readDateData`'s
output contains *no* Mail with that key at all — a different key
(`mapp = "A|x"`, `email = ""`) renders to the same composite string
`"A|x||s"` and is seen first, so both records of the pair are dropped
instead of being collapsed to the first of them. -/
theorem c4_dedup_counterexample :
    mailDupFirst ∈ combinedMails filesMailCollision ∧
    mailDupSecond ∈ combinedMails filesMailCollision ∧
    mailDupFirst ≠ mailDupSecond ∧
    natMailKey mailDupFirst = natMailKey mailDupSecond ∧
    (readDateData filesMailCollision).1.mails.filter
      (fun m => natMailKey m = natMailKey mailDupFirst) = [] ∧
    (readDateData filesMailCollision).1.mails = [mailCollider] := by
  decide

/-- The spec's own dedup example: two mails with key
`("ABC123", "a@x.se", "Hej")` and different bodies. -/
def mailHejFirst : MailM :=
  { mapp := "ABC123", folder := "", company := "", email := "a@x.se", subject := "Hej"
    mail_content := some "first body", cost_sek := none, domain_status := none
    mail_status := none, site_preview_url := none, audit_note := none }

/-- The later duplicate with another body. -/
def mailHejSecond : MailM :=
  { mailHejFirst with mail_content := some "second body" }

/-- Two mail spreadsheets, each holding one of the duplicates. -/
def filesMailDup : List SourceFile :=
  [.xlsxFile "mail_ready_20260101.xlsx" { emptyXlsx with mails := [mailHejFirst] },
   .xlsxFile "final_20260101.xlsx" { emptyXlsx with mails := [mailHejSecond] }]

/-- C4 (witness): with no rendering collision, the two records with key
`("ABC123", "a@x.se", "Hej")` collapse to exactly the first-seen one. -/
theorem c4_dedup_first_seen_witness :
    ∃ m₀, (combinedMails filesMailDup).find?
        (fun m => natMailKey m = ("ABC123", "a@x.se", "Hej")) = some m₀ ∧
      (readDateData filesMailDup).1.mails.filter
        (fun m => natMailKey m = ("ABC123", "a@x.se", "Hej")) = [m₀] :=
  c4_dedup_first_seen_amended.1 filesMailDup ("ABC123", "a@x.se", "Hej")
    ⟨mailHejFirst, by decide, by decide⟩ (by decide)

/-! ## C10 — totality and coercion behavior of the company normalizer. -/

theorem takeWhile_append_of_forall {p : Char → Bool} :
    ∀ (l₁ l₂ : List Char), (∀ c ∈ l₁, p c = true) →
      (l₁ ++ l₂).takeWhile p = l₁ ++ l₂.takeWhile p := by
  intro l₁
  induction l₁ with
  | nil => intro l₂ _; rfl
  | cons c cs ih =>
      intro l₂ h
      rw [List.cons_append, List.takeWhile_cons, h c (List.mem_cons_self _ _)]
      rw [ih l₂ (fun x hx => h x (List.mem_cons_of_mem _ hx))]
      rfl

theorem dropWhile_append_of_forall {p : Char → Bool} :
    ∀ (l₁ l₂ : List Char), (∀ c ∈ l₁, p c = true) →
      (l₁ ++ l₂).dropWhile p = l₂.dropWhile p := by
  intro l₁
  induction l₁ with
  | nil => intro l₂ _; rfl
  | cons c cs ih =>
      intro l₂ h
      rw [List.cons_append, List.dropWhile_cons, h c (List.mem_cons_self _ _)]
      simp only [if_true]
      exact ih l₂ (fun x hx => h x (List.mem_cons_of_mem _ hx))

theorem takeWhile_eq_self_of_forall {p : Char → Bool} (l : List Char)
    (h : ∀ c ∈ l, p c = true) : l.takeWhile p = l := by
  have := takeWhile_append_of_forall l [] h
  simpa using this

theorem dropWhile_eq_nil_of_forall {p : Char → Bool} (l : List Char)
    (h : ∀ c ∈ l, p c = true) : l.dropWhile p = [] := by
  have := dropWhile_append_of_forall l [] h
  simpa using this

theorem takeWhile_eq_nil_of_forall {p : Char → Bool} (l : List Char)
    (h : ∀ c ∈ l, p c = false) : l.takeWhile p = [] := by
  cases l with
  | nil => rfl
  | cons c cs =>
      rw [List.takeWhile_cons, h c (List.mem_cons_self _ _)]
      simp

theorem dropWhile_eq_self_of_forall {p : Char → Bool} (l : List Char)
    (h : ∀ c ∈ l, p c = false) : l.dropWhile p = l := by
  cases l with
  | nil => rfl
  | cons c cs =>
      rw [List.dropWhile_cons, h c (List.mem_cons_self _ _)]
      simp

theorem digit_ne_of_not_digit {c d : Char} (hc : c.isDigit = true)
    (hd : d.isDigit = false) : c ≠ d := by
  intro h
  rw [h, hd] at hc
  cases hc

theorem digit_not_ws {c : Char} (hc : c.isDigit = true) : c.isWhitespace = false := by
  cases hw : c.isWhitespace
  · rfl
  · exfalso
    have hw' : ((c = ' ' ∨ c = '\t') ∨ c = '\x0d') ∨ c = '\n' := by
      simpa [Char.isWhitespace] using hw
    rcases hw' with ((h | h) | h) | h <;> (subst h; exact absurd hc (by decide))

theorem startsWithChars_inf_false {l : List Char} (h : 'I' ∉ l) :
    startsWithChars l ['I', 'n', 'f', 'i', 'n', 'i', 't', 'y'] = false := by
  cases l with
  | nil => rfl
  | cons c cs =>
      have hc : c ≠ 'I' := by
        intro hceq
        apply h
        rw [← hceq]
        exact List.mem_cons_self _ _
      simp [startsWithChars, hc]

theorem digits_not_comma {l : List Char} (h : ∀ c ∈ l, c.isDigit = true) :
    ',' ∉ l := by
  intro hmem
  have := h ',' hmem
  exact absurd this (by decide)

theorem replaceFirstComma_of_not_mem :
    ∀ (l : List Char), ',' ∉ l → replaceFirstComma l = l := by
  intro l
  induction l with
  | nil => intro _; rfl
  | cons c cs ih =>
      intro h
      rw [replaceFirstComma]
      rw [if_neg (fun hc : c = ',' => h (hc ▸ List.mem_cons_self _ _))]
      rw [ih (fun hc => h (List.mem_cons_of_mem _ hc))]

theorem replaceFirstComma_append :
    ∀ (a b : List Char), ',' ∉ a →
      replaceFirstComma (a ++ ',' :: b) = a ++ '.' :: b := by
  intro a
  induction a with
  | nil => intro b _; simp [replaceFirstComma]
  | cons c cs ih =>
      intro b h
      rw [List.cons_append, replaceFirstComma]
      rw [if_neg (fun hc : c = ',' => h (hc ▸ List.mem_cons_self _ _))]
      rw [ih b (fun hc => h (List.mem_cons_of_mem _ hc))]
      rfl

/-- The rational value of an integer digit string and a fraction digit
string. -/
def decimalVal (a b : List Char) : Rat :=
  (digitsToNat a : Rat) + (digitsToNat b : Rat) / (10 : Rat) ^ b.length

theorem jsParseFloatL_decimal (a b : List Char)
    (ha : ∀ c ∈ a, c.isDigit = true) (hb : ∀ c ∈ b, c.isDigit = true)
    (hne : a ≠ []) :
    jsParseFloatL (a ++ '.' :: b) = some (.fin (decimalVal a b)) := by
  rcases a with _ | ⟨c, a'⟩
  · exact absurd rfl hne
  have hc : c.isDigit = true := ha c (List.mem_cons_self _ _)
  have hInf : startsWithChars (c :: (a' ++ '.' :: b))
      ['I', 'n', 'f', 'i', 'n', 'i', 't', 'y'] = false := by
    have hcI : c ≠ 'I' := by
      intro hceq
      rw [hceq] at hc
      exact absurd hc (by decide)
    simp [startsWithChars, hcI]
  have ha' : ∀ x ∈ a', x.isDigit = true := fun x hx => ha x (List.mem_cons_of_mem _ hx)
  have hdropWs : (((c :: a') ++ '.' :: b).dropWhile fun x => x.isWhitespace) =
      (c :: a') ++ '.' :: b := by
    rw [List.cons_append, List.dropWhile_cons, digit_not_ws hc]
    simp
  have hcm : c ≠ '-' := digit_ne_of_not_digit hc (by decide)
  have hcp : c ≠ '+' := digit_ne_of_not_digit hc (by decide)
  have htake : (((c :: a') ++ '.' :: b).takeWhile Char.isDigit) = c :: a' := by
    rw [takeWhile_append_of_forall (c :: a') ('.' :: b) ha]
    rw [List.takeWhile_cons]
    simp
  have hdrop : (((c :: a') ++ '.' :: b).dropWhile Char.isDigit) = '.' :: b := by
    rw [dropWhile_append_of_forall (c :: a') ('.' :: b) ha]
    rw [List.dropWhile_cons]
    simp
  have htb : b.takeWhile Char.isDigit = b := takeWhile_eq_self_of_forall b hb
  have hdb : b.dropWhile Char.isDigit = [] := dropWhile_eq_nil_of_forall b hb
  have hOr : ¬ ((c :: a' ++ '.' :: b).head? = some '-' ∨
      (c :: a' ++ '.' :: b).head? = some '+') := by
    simp [hcm, hcp]
  simp only [jsParseFloatL, hdropWs]
  rw [if_neg hOr, htake, hdrop]
  rw [if_pos (show ('.' :: b).head? = some '.' from rfl)]
  simp only [List.tail_cons]
  rw [htb, hdb]
  rw [if_neg (show ¬ ((c :: a').isEmpty = true ∧ b.isEmpty = true) from by simp)]
  rw [if_pos (show ('.' :: b).head? = some '.' from rfl)]
  simp [hInf, hcm, decimalVal]

theorem jsParseFloatL_no_digits :
    ∀ (l : List Char), (∀ c ∈ l, c.isDigit = false) → 'I' ∉ l →
      jsParseFloatL l = none := by
  intro l h hI
  have h0 : ∀ c ∈ l.dropWhile (fun x => x.isWhitespace), c.isDigit = false :=
    fun c hc => h c ((List.dropWhile_sublist _).subset hc)
  have h1 : ∀ (m : List Char), (∀ c ∈ m, c.isDigit = false) → ∀ c ∈ m.tail, c.isDigit = false :=
    fun m hm c hc => hm c (List.tail_subset m hc)
  have hI0 : 'I' ∉ l.dropWhile (fun x => x.isWhitespace) :=
    fun hc => hI ((List.dropWhile_sublist _).subset hc)
  have hI1 : 'I' ∉ (l.dropWhile (fun x => x.isWhitespace)).tail :=
    fun hc => hI0 (List.tail_subset _ hc)
  simp only [jsParseFloatL]
  by_cases hsign : (l.dropWhile fun x => x.isWhitespace).head? = some '-' ∨
      (l.dropWhile fun x => x.isWhitespace).head? = some '+'
  · rw [if_pos hsign]
    have h2 := h1 _ h0
    rw [takeWhile_eq_nil_of_forall _ h2, dropWhile_eq_self_of_forall _ h2]
    by_cases hdot : ((l.dropWhile fun x => x.isWhitespace).tail).head? = some '.'
    · rw [if_pos hdot]
      rw [takeWhile_eq_nil_of_forall _ (h1 _ h2)]
      simp [startsWithChars_inf_false hI1]
    · rw [if_neg hdot]
      simp [startsWithChars_inf_false hI1]
  · rw [if_neg hsign]
    rw [takeWhile_eq_nil_of_forall _ h0, dropWhile_eq_self_of_forall _ h0]
    by_cases hdot : (l.dropWhile fun x => x.isWhitespace).head? = some '.'
    · rw [if_pos hdot]
      rw [takeWhile_eq_nil_of_forall _ (h1 _ h0)]
      simp [startsWithChars_inf_false hI0]
    · rw [if_neg hdot]
      simp [startsWithChars_inf_false hI0]

theorem replaceFirstComma_no_digits :
    ∀ (l : List Char), (∀ c ∈ l, c.isDigit = false) →
      ∀ c ∈ replaceFirstComma l, c.isDigit = false := by
  intro l
  induction l with
  | nil => intro _ c hc; cases hc
  | cons y ys ih =>
      intro h c hc
      rw [replaceFirstComma] at hc
      by_cases hy : y = ','
      · rw [if_pos hy] at hc
        rcases List.mem_cons.mp hc with rfl | hc
        · decide
        · exact h c (List.mem_cons_of_mem _ hc)
      · rw [if_neg hy] at hc
        rcases List.mem_cons.mp hc with rfl | hc
        · exact h c (List.mem_cons_self _ _)
        · exact ih (fun x hx => h x (List.mem_cons_of_mem _ hx)) c hc

theorem replaceFirstComma_no_I :
    ∀ (l : List Char), 'I' ∉ l → 'I' ∉ replaceFirstComma l := by
  intro l
  induction l with
  | nil => intro _ hc; cases hc
  | cons y ys ih =>
      intro h hc
      rw [replaceFirstComma] at hc
      by_cases hy : y = ','
      · rw [if_pos hy] at hc
        rcases List.mem_cons.mp hc with hdot | hc
        · exact absurd hdot (by decide)
        · exact h (List.mem_cons_of_mem _ hc)
      · rw [if_neg hy] at hc
        rcases List.mem_cons.mp hc with hhead | hc
        · exact h (by rw [hhead]; exact List.mem_cons_self _ _)
        · exact ih (fun hx => h (List.mem_cons_of_mem _ hx)) hc

theorem asNumber_decimal (a b : List Char)
    (ha : ∀ c ∈ a, c.isDigit = true) (hb : ∀ c ∈ b, c.isDigit = true)
    (hne : a ≠ []) :
    asNumber (some (.nvStr (String.mk (a ++ ',' :: b)))) = some (.fin (decimalVal a b)) ∧
    asNumber (some (.nvStr (String.mk (a ++ '.' :: b)))) = some (.fin (decimalVal a b)) := by
  constructor
  · show jsParseFloatL (replaceFirstComma (String.mk (a ++ ',' :: b)).toList) = _
    rw [show (String.mk (a ++ ',' :: b)).toList = a ++ ',' :: b from rfl]
    rw [replaceFirstComma_append a b (digits_not_comma ha)]
    exact jsParseFloatL_decimal a b ha hb hne
  · show jsParseFloatL (replaceFirstComma (String.mk (a ++ '.' :: b)).toList) = _
    rw [show (String.mk (a ++ '.' :: b)).toList = a ++ '.' :: b from rfl]
    have hnc : ',' ∉ a ++ '.' :: b := by
      intro hmem
      rcases List.mem_append.mp hmem with hmem | hmem
      · exact digits_not_comma ha hmem
      · rcases List.mem_cons.mp hmem with h | hmem
        · cases h
        · exact digits_not_comma hb hmem
    rw [replaceFirstComma_of_not_mem _ hnc]
    exact jsParseFloatL_decimal a b ha hb hne

theorem asNumber_no_digits (l : List Char) (h : ∀ c ∈ l, c.isDigit = false)
    (hI : 'I' ∉ l) :
    asNumber (some (.nvStr (String.mk l))) = none := by
  show jsParseFloatL (replaceFirstComma (String.mk l).toList) = none
  rw [show (String.mk l).toList = l from rfl]
  exact jsParseFloatL_no_digits _ (replaceFirstComma_no_digits l h)
    (replaceFirstComma_no_I l hI)

/-- The value the mapping loop leaves in `result[t]`: the last entry in map
order whose source key is present wins (later object assignments overwrite
earlier ones). -/
def lastAssign (raw : RawRecord) : List (String × String) → String →
    Option (Option NormValue)
  | [], _ => none
  | e :: es, t =>
      match lastAssign raw es t with
      | some v => some v
      | none =>
          if t = e.2 ∧ (jsLookup raw e.1).isSome then
            some (normalizeValue ((jsLookup raw e.1).getD .vUndef))
          else none

theorem foldl_assign_eq_lastAssign (raw : RawRecord) :
    ∀ (entries : List (String × String)) (acc : String → Option (Option NormValue))
      (t : String),
      (entries.foldl
        (fun acc e =>
          if (jsLookup raw e.1).isSome then
            fun t' => if t' = e.2 then
              some (normalizeValue ((jsLookup raw e.1).getD .vUndef))
            else acc t'
          else acc)
        acc) t =
      (match lastAssign raw entries t with
       | some v => some v
       | none => acc t) := by
  intro entries
  induction entries with
  | nil => intro acc t; rfl
  | cons e es ih =>
      intro acc t
      rw [List.foldl_cons, ih]
      simp only [lastAssign]
      cases h : lastAssign raw es t with
      | some v => rfl
      | none =>
          by_cases hs : (jsLookup raw e.1).isSome
          · by_cases ht : t = e.2
            · simp [hs, ht]
            · simp [hs, ht]
          · simp [hs]

theorem resolveCompanyField_eq_lastAssign (raw : RawRecord) (t : String) :
    resolveCompanyField raw t = (lastAssign raw companyFieldMap t).join := by
  show (applyFieldMap companyFieldMap raw t).join = _
  rw [show applyFieldMap companyFieldMap raw t =
      (match lastAssign raw companyFieldMap t with
       | some v => some v
       | none => (fun _ => none) t) from
    foldl_assign_eq_lastAssign raw companyFieldMap (fun _ => none) t]
  cases lastAssign raw companyFieldMap t <;> rfl

/-- Only the entries targeting `t` matter for `lastAssign` at `t`. -/
theorem lastAssign_filter (raw : RawRecord) :
    ∀ (entries : List (String × String)) (t : String),
      lastAssign raw entries t =
        lastAssign raw (entries.filter (fun e => e.2 == t)) t := by
  intro entries
  induction entries with
  | nil => intro t; rfl
  | cons e es ih =>
      intro t
      by_cases ht : e.2 = t
      · rw [List.filter_cons_of_pos (by simp [ht])]
        simp only [lastAssign]
        rw [ih t]
      · rw [List.filter_cons_of_neg (by simp [ht])]
        simp only [lastAssign]
        rw [if_neg (fun hc : t = e.2 ∧ _ => ht hc.1.symm)]
        rw [ih t]
        cases lastAssign raw (es.filter (fun e => e.2 == t)) t <;> rfl

theorem lastAssign_mapp_none (raw : RawRecord)
    (h1 : jsLookup raw "Mapp" = none) (h2 : jsLookup raw "mapp" = none) :
    lastAssign raw companyFieldMap "mapp" = none := by
  rw [lastAssign_filter]
  rw [show companyFieldMap.filter (fun e => e.2 == "mapp") =
    [("Mapp", "mapp"), ("mapp", "mapp")] by decide]
  simp [lastAssign, h1, h2]

theorem lastAssign_kungorelse_none (raw : RawRecord)
    (h1 : jsLookup raw "Kungörelse-id" = none) (h2 : jsLookup raw "kungorelse_id" = none) :
    lastAssign raw companyFieldMap "kungorelse_id" = none := by
  rw [lastAssign_filter]
  rw [show companyFieldMap.filter (fun e => e.2 == "kungorelse_id") =
    [("Kungörelse-id", "kungorelse_id"), ("kungorelse_id", "kungorelse_id")] by decide]
  simp [lastAssign, h1, h2]

theorem lastAssign_foretagsnamn_none (raw : RawRecord)
    (h1 : jsLookup raw "Företagsnamn" = none) (h2 : jsLookup raw "foretagsnamn" = none) :
    lastAssign raw companyFieldMap "foretagsnamn" = none := by
  rw [lastAssign_filter]
  rw [show companyFieldMap.filter (fun e => e.2 == "foretagsnamn") =
    [("Företagsnamn", "foretagsnamn"), ("foretagsnamn", "foretagsnamn")] by decide]
  simp [lastAssign, h1, h2]

theorem lastAssign_orgnr_none (raw : RawRecord)
    (h1 : jsLookup raw "Org.nr" = none) (h2 : jsLookup raw "orgnr" = none) :
    lastAssign raw companyFieldMap "orgnr" = none := by
  rw [lastAssign_filter]
  rw [show companyFieldMap.filter (fun e => e.2 == "orgnr") =
    [("Org.nr", "orgnr"), ("orgnr", "orgnr")] by decide]
  simp [lastAssign, h1, h2]

theorem lastAssign_domain_confidence (raw : RawRecord) (v : JsValue)
    (h : jsLookup raw "domain_confidence" = some v) :
    lastAssign raw companyFieldMap "domain_confidence" =
      some (normalizeValue v) := by
  rw [lastAssign_filter]
  rw [show companyFieldMap.filter (fun e => e.2 == "domain_confidence") =
    [("domain_confidence", "domain_confidence")] by decide]
  simp [lastAssign, h]

theorem lastAssign_segment (raw : RawRecord) (v : JsValue)
    (_h1 : jsLookup raw "Segment" = none) (h2 : jsLookup raw "segment" = some v) :
    lastAssign raw companyFieldMap "segment" = some (normalizeValue v) := by
  rw [lastAssign_filter]
  rw [show companyFieldMap.filter (fun e => e.2 == "segment") =
    [("Segment", "segment"), ("segment", "segment")] by decide]
  simp [lastAssign, h2]

/-- C10: entity normalization is total (every clause below is about the
total function `normalizeCompany`; no input makes it fail).  The natural-key
fields `mapp`, `kungorelse_id`, `foretagsnamn` and `orgnr` are plain strings
that default to `""` when none of their synonyms occurs in the raw record;
the numeric `domain_confidence` field is fed through `asNumber`, which
accepts a decimal written with a comma exactly as one written with a period
and returns `null` (never an error) on every non-parsable input — the
digit-free strings below, where the `'I' ∉ g` side condition excludes the
one digit-free token `parseFloat` does accept, the `Infinity` literal,
which (with either sign) parses to the corresponding infinite number rather
than `null`; string fields such as `segment` are trimmed, and an empty or
whitespace-only value collapses to `null`. -/
theorem c10_normalizeCompany_total (raw : RawRecord) (s : String) (v : JsValue)
    (a b g : List Char) :
    ((jsLookup raw "Mapp" = none → jsLookup raw "mapp" = none →
        (normalizeCompany raw).mapp = "") ∧
     (jsLookup raw "Kungörelse-id" = none → jsLookup raw "kungorelse_id" = none →
        (normalizeCompany raw).kungorelse_id = "") ∧
     (jsLookup raw "Företagsnamn" = none → jsLookup raw "foretagsnamn" = none →
        (normalizeCompany raw).foretagsnamn = "") ∧
     (jsLookup raw "Org.nr" = none → jsLookup raw "orgnr" = none →
        (normalizeCompany raw).orgnr = "")) ∧
    (jsLookup raw "domain_confidence" = some v →
      (normalizeCompany raw).domain_confidence = asNumber (normalizeValue v)) ∧
    ((∀ c ∈ a, c.isDigit = true) → (∀ c ∈ b, c.isDigit = true) → a ≠ [] →
      asNumber (some (.nvStr (String.mk (a ++ ',' :: b)))) = some (.fin (decimalVal a b)) ∧
      asNumber (some (.nvStr (String.mk (a ++ '.' :: b)))) = some (.fin (decimalVal a b))) ∧
    ((∀ c ∈ g, c.isDigit = false) → 'I' ∉ g →
      asNumber (some (.nvStr (String.mk g))) = none) ∧
    (asNumber (some (.nvStr "Infinity")) = some .posInf ∧
     asNumber (some (.nvStr "-Infinity")) = some .negInf) ∧
    (jsLookup raw "Segment" = none → jsLookup raw "segment" = some (.vStr s) →
      (normalizeCompany raw).segment =
        (if jsTrim s = "" then none else some (jsTrim s))) := by
  refine ⟨⟨?_, ?_, ?_, ?_⟩, ?_, ?_, ?_, ⟨by decide, by decide⟩, ?_⟩
  · intro h1 h2
    show (asString (resolveCompanyField raw "mapp")).getD "" = ""
    rw [resolveCompanyField_eq_lastAssign, lastAssign_mapp_none raw h1 h2]
    rfl
  · intro h1 h2
    show (asString (resolveCompanyField raw "kungorelse_id")).getD "" = ""
    rw [resolveCompanyField_eq_lastAssign, lastAssign_kungorelse_none raw h1 h2]
    rfl
  · intro h1 h2
    show (asString (resolveCompanyField raw "foretagsnamn")).getD "" = ""
    rw [resolveCompanyField_eq_lastAssign, lastAssign_foretagsnamn_none raw h1 h2]
    rfl
  · intro h1 h2
    show (asString (resolveCompanyField raw "orgnr")).getD "" = ""
    rw [resolveCompanyField_eq_lastAssign, lastAssign_orgnr_none raw h1 h2]
    rfl
  · intro h
    show asNumber (resolveCompanyField raw "domain_confidence") = _
    rw [resolveCompanyField_eq_lastAssign, lastAssign_domain_confidence raw v h]
    rfl
  · intro ha hb hne
    exact asNumber_decimal a b ha hb hne
  · intro hg hI
    exact asNumber_no_digits g hg hI
  · intro h1 h2
    show asString (resolveCompanyField raw "segment") = _
    rw [resolveCompanyField_eq_lastAssign, lastAssign_segment raw (.vStr s) h1 h2]
    by_cases hs : s = ""
    · subst hs
      rw [if_pos (show jsTrim "" = "" by decide)]
      rfl
    · by_cases ht : jsTrim s = ""
      · simp [normalizeValue, asString, hs, ht]
      · simp [normalizeValue, asString, hs, ht]

/-- A raw record carrying a comma-decimal confidence and a whitespace-padded
segment, with none of the natural-key synonyms present. -/
def rawC10 : RawRecord :=
  [("domain_confidence", .vStr "0,85"), ("segment", .vStr "  Bygg ")]

/-- C10 (witness): on a concrete record, the key fields default to `""`, the
comma-decimal confidence `"0,85"` parses to the finite `17/20` exactly as
`"0.85"` would, an all-letter numeric value without the `Infinity` literal
yields `null` while `"Infinity"` itself parses to the positive infinite
number, and the padded segment is trimmed. -/
theorem c10_normalizeCompany_total_witness :
    (normalizeCompany rawC10).mapp = "" ∧
    (normalizeCompany rawC10).orgnr = "" ∧
    (normalizeCompany rawC10).domain_confidence =
      some (.fin (decimalVal ['0'] ['8', '5'])) ∧
    (normalizeCompany rawC10).segment = some "Bygg" ∧
    asNumber (some (.nvStr (String.mk ['0', ',', '8', '5']))) =
      some (.fin (decimalVal ['0'] ['8', '5'])) ∧
    asNumber (some (.nvStr (String.mk ['a', 'b', 'c']))) = none ∧
    asNumber (some (.nvStr "Infinity")) = some JsNum.posInf := by
  have h := c10_normalizeCompany_total rawC10 "  Bygg " (.vStr "0,85")
    ['0'] ['8', '5'] ['a', 'b', 'c']
  refine ⟨h.1.1 (by decide) (by decide), h.1.2.2.2 (by decide) (by decide), ?_, ?_,
    (h.2.2.1 (by decide) (by decide) (by decide)).1,
    h.2.2.2.1 (by decide) (by decide), h.2.2.2.2.1.1⟩
  · rw [h.2.1 (by decide)]
    rw [show normalizeValue (.vStr "0,85") = some (.nvStr (String.mk ['0', ',', '8', '5']))
      from by decide]
    exact (h.2.2.1 (by decide) (by decide) (by decide)).1
  · rw [h.2.2.2.2.2 (by decide) (by decide)]
    decide

end Jocke
